import Mathlib

/-!
Verification development for the lecp CBOR stream parser
(src/lib/misc/lecp.c of the libwebsockets tree).

The C source is shallowly embedded below.  Machine integers are
modelled as `Nat` (with explicit reductions modulo powers of two where
the C arithmetic can wrap), fixed-size arrays with a cursor are
modelled as Lean lists whose length is the cursor, and the user
callback is a function from the visible context and the event code to
`Bool` (`true` models a non-zero C return).  Every callback invocation
is recorded in a trace of (context snapshot, event code) pairs, which
is what the theorems below inspect.
-/

namespace Lecp

/-- Parse sub-states, from `enum lecp_states` in lecp.c. -/
def LECP_OPC : Nat := 0

/-- See `LECP_OPC`. -/
def LECP_COLLECT : Nat := 1

/-- See `LECP_OPC`. -/
def LECP_SIMPLEX8 : Nat := 2

/-- See `LECP_OPC`. -/
def LECP_COLLATE : Nat := 3

/-- See `LECP_OPC`. -/
def LECP_ONLY_SAME : Nat := 4

/-- CBOR major type mask constants as used by lecp.c (`c & 0xE0`,
`c & 0x1F`); their values are forced by RFC 8949 (spec section 4.A). -/
def LWS_CBOR_MAJTYP_UINT : Nat := 0x00

/-- See `LWS_CBOR_MAJTYP_UINT`. -/
def LWS_CBOR_MAJTYP_INT_NEG : Nat := 0x20

/-- See `LWS_CBOR_MAJTYP_UINT`. -/
def LWS_CBOR_MAJTYP_BSTR : Nat := 0x40

/-- See `LWS_CBOR_MAJTYP_UINT`. -/
def LWS_CBOR_MAJTYP_TSTR : Nat := 0x60

/-- See `LWS_CBOR_MAJTYP_UINT`. -/
def LWS_CBOR_MAJTYP_ARRAY : Nat := 0x80

/-- See `LWS_CBOR_MAJTYP_UINT`. -/
def LWS_CBOR_MAJTYP_MAP : Nat := 0xa0

/-- See `LWS_CBOR_MAJTYP_UINT`. -/
def LWS_CBOR_MAJTYP_TAG : Nat := 0xc0

/-- See `LWS_CBOR_MAJTYP_UINT`. -/
def LWS_CBOR_MAJTYP_FLOAT : Nat := 0xe0

/-- First minor value that announces a multi-byte argument. -/
def LWS_CBOR_1 : Nat := 24

/-- First reserved minor value (28..30 are reserved). -/
def LWS_CBOR_RESERVED : Nat := 28

/-- Minor value 31: indefinite-length marker / BREAK. -/
def LWS_CBOR_INDETERMINITE : Nat := 31

/-- Major-7 subtype constants (RFC 8949 simple values and floats). -/
def LWS_CBOR_SWK_FALSE : Nat := 20

/-- See `LWS_CBOR_SWK_FALSE`. -/
def LWS_CBOR_SWK_TRUE : Nat := 21

/-- See `LWS_CBOR_SWK_FALSE`. -/
def LWS_CBOR_SWK_NULL : Nat := 22

/-- See `LWS_CBOR_SWK_FALSE`. -/
def LWS_CBOR_SWK_UNDEFINED : Nat := 23

/-- See `LWS_CBOR_SWK_FALSE`. -/
def LWS_CBOR_M7_SUBTYP_SIMPLE_X8 : Nat := 24

/-- See `LWS_CBOR_SWK_FALSE`. -/
def LWS_CBOR_M7_SUBTYP_FLOAT16 : Nat := 25

/-- See `LWS_CBOR_SWK_FALSE`. -/
def LWS_CBOR_M7_SUBTYP_FLOAT32 : Nat := 26

/-- See `LWS_CBOR_SWK_FALSE`. -/
def LWS_CBOR_M7_SUBTYP_FLOAT64 : Nat := 27

/-- See `LWS_CBOR_SWK_FALSE`. -/
def LWS_CBOR_M7_BREAK : Nat := 31

/-- Modelled from the spec: the frame-stack capacity
(`LWS_ARRAY_SIZE(ctx->st)`).  The header declaring `struct lecp_ctx`
is not part of the given source; the spec only says the depth is
bounded by a compile-time constant, so a concrete representative value
is fixed here. -/
def LWS_LECP_MAX_DEPTH : Nat := 12

/-- Modelled from the spec: capacity of the array-index stack
(`LWS_ARRAY_SIZE(ctx->i)`), a compile-time constant of the missing
header. -/
def LWS_LECP_MAX_INDEX_DEPTH : Nat := 8

/-- Modelled from the spec: size of the fixed path buffer
(`sizeof(ctx->path)`), a compile-time constant of the missing header. -/
def LWS_LECP_MAX_PATH : Nat := 128

/-- Modelled from the spec: `sizeof(ctx->buf) - 1`, the content-buffer
spill boundary used by the COLLATE state; a compile-time constant of
the missing header. -/
def LECP_STRING_CHUNK : Nat := 254

/-- Return codes of `lecp_parse`, from `enum lecp_reasons`.  The
numeric values are pinned by the `parser_errs` table in lecp.c
together with `lecp_error_to_string` (index 2 is the bad-coding text,
4 the callback text, 5 the overflow text). -/
def LECP_CONTINUE : Int := -1

/-- See `LECP_CONTINUE`. -/
def LECP_REJECT_BAD_CODING : Int := -2

/-- See `LECP_CONTINUE`. -/
def LECP_REJECT_UNKNOWN : Int := -3

/-- See `LECP_CONTINUE`. -/
def LECP_REJECT_CALLBACK : Int := -4

/-- See `LECP_CONTINUE`. -/
def LECP_STACK_OVERFLOW : Int := -5

/-- Modelled from the spec: the numeric callback event codes
(`enum lecp_callbacks`) live in the missing header.  The spec fixes
the taxonomy and requires BLOB_END - STR_END = BLOB_START - STR_START
= BLOB_CHUNK - STR_CHUNK, and lecp.c additionally relies on
CHUNK = END - 1 for both families (the `o--` in the COLLATE state);
the values below satisfy all of those relations, are pairwise
distinct, and keep 0 free as the no-event marker for `pop_iss`. -/
def LECPCB_CONSTRUCTED : Nat := 0

/-- See `LECPCB_CONSTRUCTED`. -/
def LECPCB_DESTRUCTED : Nat := 1

/-- See `LECPCB_CONSTRUCTED`. -/
def LECPCB_COMPLETE : Nat := 3

/-- See `LECPCB_CONSTRUCTED`. -/
def LECPCB_FAILED : Nat := 4

/-- See `LECPCB_CONSTRUCTED`. -/
def LECPCB_VAL_TRUE : Nat := 6

/-- See `LECPCB_CONSTRUCTED`. -/
def LECPCB_VAL_FALSE : Nat := 7

/-- See `LECPCB_CONSTRUCTED`. -/
def LECPCB_VAL_NULL : Nat := 8

/-- See `LECPCB_CONSTRUCTED`. -/
def LECPCB_VAL_NUM_INT : Nat := 9

/-- See `LECPCB_CONSTRUCTED`. -/
def LECPCB_VAL_STR_START : Nat := 11

/-- See `LECPCB_CONSTRUCTED`. -/
def LECPCB_VAL_STR_CHUNK : Nat := 12

/-- See `LECPCB_CONSTRUCTED`. -/
def LECPCB_VAL_STR_END : Nat := 13

/-- See `LECPCB_CONSTRUCTED`. -/
def LECPCB_ARRAY_START : Nat := 14

/-- See `LECPCB_CONSTRUCTED`. -/
def LECPCB_ARRAY_END : Nat := 15

/-- See `LECPCB_CONSTRUCTED`. -/
def LECPCB_OBJECT_START : Nat := 16

/-- See `LECPCB_CONSTRUCTED`. -/
def LECPCB_OBJECT_END : Nat := 17

/-- See `LECPCB_CONSTRUCTED`. -/
def LECPCB_TAG_START : Nat := 18

/-- See `LECPCB_CONSTRUCTED`. -/
def LECPCB_TAG_END : Nat := 19

/-- See `LECPCB_CONSTRUCTED`. -/
def LECPCB_VAL_NUM_UINT : Nat := 20

/-- See `LECPCB_CONSTRUCTED`. -/
def LECPCB_VAL_UNDEFINED : Nat := 21

/-- See `LECPCB_CONSTRUCTED`. -/
def LECPCB_VAL_FLOAT16 : Nat := 22

/-- See `LECPCB_CONSTRUCTED`. -/
def LECPCB_VAL_FLOAT32 : Nat := 23

/-- See `LECPCB_CONSTRUCTED`. -/
def LECPCB_VAL_FLOAT64 : Nat := 24

/-- See `LECPCB_CONSTRUCTED`. -/
def LECPCB_VAL_SIMPLE : Nat := 25

/-- See `LECPCB_CONSTRUCTED`. -/
def LECPCB_VAL_BLOB_START : Nat := 26

/-- See `LECPCB_CONSTRUCTED`. -/
def LECPCB_VAL_BLOB_CHUNK : Nat := 27

/-- See `LECPCB_CONSTRUCTED`. -/
def LECPCB_VAL_BLOB_END : Nat := 28

/-- One entry of `struct _lecp_stack`: a parse frame.  `s` is the
sub-state, `p` the saved path cursor, `pop_iss` the deferred event to
issue on pop (0 = none), `collect_rem` the remaining argument bytes /
children / string bytes, `ordinal` the children seen so far, `opcode`
the masked major type and `tag` the tag number.  `indet` and
`intermediate` model the C char flags. -/
structure Frame where
  s : Nat := 0
  p : Nat := 0
  indet : Bool := false
  intermediate : Bool := false
  pop_iss : Nat := 0
  collect_rem : Nat := 0
  ordinal : Nat := 0
  opcode : Nat := 0
  tag : Nat := 0
  deriving Repr, DecidableEq

/-- The parser context `struct lecp_ctx`.  The frame stack
`ctx->st[0..sp]` is split into the current top `st` and the frames
below it `stRest` (nearest parent first), so `sp = stRest.length`.
The path buffer and its cursor `pst->ppos` are modelled as the list
`path` of the first `ppos` bytes (the C code keeps a NUL at index
`ppos`); the content buffer and `npos` likewise as `buf`; the
array-index stack `i[0..ipos)` as the list `i`.  `item` is the value
the big-endian collector assembles into the destination member of the
item union (`u.u64` for integer arguments; the C code zeroes that
destination before collecting and fully overwrites it).  `itemOpcode`
is `ctx->item.opcode` and `present` the pending scalar event.  Only
`pst[0]` of the nested parsing stack is ever used by lecp.c (nothing
in the file changes `pst_sp`), so its `paths` list is stored inline
and the callback is passed as an explicit argument of type `Lecb`.
The host-endianness flag and the collector target pointer of the C
struct are absorbed by the big-endian accumulation in the COLLECT
state, which is what both byte orders of `ex()` compute. -/
structure Ctx where
  st : Frame := {}
  stRest : List Frame := []
  paths : List (List Nat) := []
  path : List Nat := []
  i : List Nat := []
  buf : List Nat := []
  item : Nat := 0
  itemOpcode : Nat := 0
  present : Nat := 0
  path_match : Nat := 0
  path_match_len : Nat := 0
  wild : List Nat := []
  deriving Repr, DecidableEq

/-- The user callback: sees the context and the event code, returns
`true` to model a non-zero (cancelling) C return. -/
abbrev Lecb := Ctx → Nat → Bool

/-- The recorded callback trace: each invocation as (context snapshot
at call time, event code). -/
abbrev Trace := List (Ctx × Nat)

/-- The signed 64-bit reading of a `u64` bit pattern, i.e. the value a
callback sees in `ctx->item.u.i64`. -/
def i64view (u : Nat) : Int :=
  if u < 2 ^ 63 then (u : Int) else (u : Int) - 2 ^ 64

/-- The `*` consumption loop of `lecp_check_path_match`:
`while (*p && (*p != '.' || !*q)) p++;` with `off` the running offset
of the path cursor from the start of the live path; `qend` tells
whether the pattern cursor is exhausted (star is pattern-final). -/
def starRun : List Nat → Nat → Bool → List Nat × Nat
  | [], off, _ => ([], off)
  | c :: p, off, qend =>
    if c = 46 ∧ ¬ qend then (c :: p, off)
    else starRun p (off + 1) qend

/-- The per-pattern two-cursor scan of `lecp_check_path_match`
(the `while (*p && *q)` loop plus the `if (*p || *q)` success test).
`off` is the current offset into the live path and `w` the wildcard
offsets recorded so far; character 42 is `*` and 46 is `.`.  Returns
(matched, recorded wildcard offsets). -/
def scanPat : List Nat → List Nat → Nat → List Nat → Bool × List Nat
  | [], [], _, w => (true, w)
  | [], _ :: _, _, w => (false, w)
  | _ :: _, [], _, w => (false, w)
  | pc :: pr, qc :: qr, off, w =>
    if qc = 42 then
      let pr2 := starRun (pc :: pr) off (qr = [])
      scanPat pr2.1 qr pr2.2 (w ++ [off])
    else if pc = qc then scanPat pr qr (off + 1) w
    else (false, w)

/-- The live path the matcher walks: the C cursor stops at the first
NUL byte of the path buffer. -/
def pathLive (p : List Nat) : List Nat := p.takeWhile (fun c => c ≠ 0)

/-- The pattern loop of `lecp_check_path_match`
(`for (n = 0; !ctx->path_match && n < count_paths; n++)`), returning
the 0-based index of the first matching pattern together with its
recorded wildcard offsets.  Each iteration restarts with
`wildcount = 0`.  The configurable pattern stride of the C code only
addresses the pattern strings in caller memory and is absorbed by
modelling the registered patterns as a list. -/
def findPat : List (List Nat) → List Nat → Nat → Option (Nat × List Nat)
  | [], _, _ => none
  | q :: qs, p, n =>
    let r := scanPat p q 0 []
    if r.1 then some (n, r.2) else findPat qs p (n + 1)

/-- `lecp_check_path_match`: recompute the pattern match.  The loop
body only runs while no match is active; on success the stored index
is 1-based (`n + 1`) and `path_match_len` is the current path cursor;
when the loop ends with no match, `wildcount` is reset to 0. -/
def lecp_check_path_match (ctx : Ctx) : Ctx :=
  if ctx.path_match ≠ 0 then ctx
  else
    match findPat ctx.paths (pathLive ctx.path) 0 with
    | some nr =>
      { ctx with path_match := nr.1 + 1, path_match_len := ctx.path.length, wild := nr.2 }
    | none => { ctx with wild := [] }

/-- `lecp_push`: refuse when the frame stack is full; optionally issue
`s_start` (a rejecting callback aborts before any mutation); then
store `s_end` as the current top's deferred pop event, duplicate the
top and reset the child frame. -/
def lecp_push (cb : Lecb) (ctx : Ctx) (s_start s_end state : Nat) :
    Ctx × Trace × Int :=
  if ctx.stRest.length + 1 = LWS_LECP_MAX_DEPTH then
    (ctx, [], LECP_STACK_OVERFLOW)
  else
    let evs : Trace := if s_start ≠ 0 then [(ctx, s_start)] else []
    if s_start != 0 && cb ctx s_start then
      (ctx, evs, LECP_REJECT_CALLBACK)
    else
      let parentF := { ctx.st with pop_iss := s_end }
      let topF := { parentF with s := state, collect_rem := 0, intermediate := false, indet := false, ordinal := 0 }
      ({ ctx with st := topF, stRest := parentF :: ctx.stRest }, evs, 0)

/-- `lecp_pop`: drop the top frame; if the restored frame's deferred
event is ARRAY_END also pop the array-index stack; restore the path
cursor, re-run matching, then issue the deferred event (a non-zero
callback return yields `LECP_REJECT_CALLBACK`).  The `[]` case is the
`assert(ctx->sp)` situation, unreachable from the call sites. -/
def lecp_pop (cb : Lecb) (ctx : Ctx) : Ctx × Trace × Int :=
  match ctx.stRest with
  | [] => (ctx, [], 0)
  | fr :: rest =>
    let ctx1 : Ctx := { ctx with st := fr, stRest := rest }
    let ctx2 : Ctx :=
      { ctx1 with i := if fr.pop_iss = LECPCB_ARRAY_END then ctx1.i.dropLast
                       else ctx1.i }
    let ctx3 : Ctx := { ctx2 with path := ctx2.path.take fr.p }
    let ctx4 := lecp_check_path_match ctx3
    if fr.pop_iss ≠ 0 then
      if cb ctx4 fr.pop_iss then
        (ctx4, [(ctx4, fr.pop_iss)], LECP_REJECT_CALLBACK)
      else (ctx4, [(ctx4, fr.pop_iss)], 0)
    else (ctx4, [], 0)

/-- Increment entry `k` of the array-index stack (`ctx->i[il]++`). -/
def bumpIdx (l : List Nat) (k : Nat) : List Nat := l.set k (l.getD k 0 + 1)

/-- The `ctx->st[ctx->sp - 1].s = LECP_OPC` assignment performed just
before popping in `lwcp_completed`. -/
def setParentOPC (ctx : Ctx) : Ctx :=
  match ctx.stRest with
  | [] => ctx
  | f :: r => { ctx with stRest := { f with s := LECP_OPC } :: r }

/-- The `while (ctx->sp)` walk of `lwcp_completed`.  `il` is the local
copy of `ipos` that steps down past array ancestors; the fuel is the
stack depth at entry (each iteration either returns or pops, so the
loop runs at most `sp` times and the fuel reproduces the loop
exactly). -/
def lwcp_walk (cb : Lecb) : Nat → Ctx → Bool → Nat → Ctx × Trace × Int
  | 0, ctx, _, _ => (ctx, [], 0)
  | fuel + 1, ctx, indet, il =>
    match ctx.stRest with
    | [] => (ctx, [], 0)
    | parentF :: rest =>
      let parent1 := { parentF with ordinal := parentF.ordinal + 1 }
      let ctx1 : Ctx := { ctx with stRest := parent1 :: rest, i := if parent1.opcode = LWS_CBOR_MAJTYP_ARRAY then bumpIdx ctx.i (il - 1) else ctx.i }
      let il1 := if parent1.opcode = LWS_CBOR_MAJTYP_ARRAY then il - 1 else il
      if !indet && parent1.indet then (ctx1, [], 0)
      else
        if !parent1.indet && decide (parent1.collect_rem ≠ 0) then
          let parent2 := { parent1 with collect_rem := parent1.collect_rem - 1 }
          let ctx2 : Ctx := { ctx1 with stRest := parent2 :: rest }
          if parent2.collect_rem ≠ 0 then (ctx2, [], 0)
          else
            let pp := lecp_pop cb (setParentOPC ctx2)
            if pp.2.2 ≠ 0 then pp
            else
              let rec2 := lwcp_walk cb fuel pp.1 false il1
              (rec2.1, pp.2.1 ++ rec2.2.1, rec2.2.2)
        else
          let pp := lecp_pop cb (setParentOPC ctx1)
          if pp.2.2 ≠ 0 then pp
          else
            let rec2 := lwcp_walk cb fuel pp.1 false il1
            (rec2.1, pp.2.1 ++ rec2.2.1, rec2.2.2)

/-- `lwcp_completed`: reset the top frame's sub-state to OPC, then
walk up the ancestors (see `lwcp_walk`). -/
def lwcp_completed (cb : Lecb) (ctx : Ctx) (indet : Bool) :
    Ctx × Trace × Int :=
  let ctx0 : Ctx := { ctx with st := { ctx.st with s := LECP_OPC } }
  lwcp_walk cb ctx0.stRest.length ctx0 indet ctx0.i.length

/-- `lwcp_is_indet_string`. -/
def lwcp_is_indet_string (ctx : Ctx) : Bool :=
  if ctx.st.indet then true
  else
    match ctx.stRest with
    | [] => false
    | f :: _ =>
      if f.opcode != LWS_CBOR_MAJTYP_BSTR && f.opcode != LWS_CBOR_MAJTYP_TSTR
      then false
      else f.indet

/-- The outcome of processing one input byte, before the common
reject handling: the constructors mirror the `goto` labels of
`lecp_parse` (`ok` = fall through to the next byte, `badCoding`,
`overflowed` = `reject_overflow`, `rejectedCb` = `reject_callback`,
`hardReturn` = a direct `return ret` that bypasses the labels). -/
inductive StepCore where
  | ok (ctx : Ctx) (evs : Trace)
  | badCoding (ctx : Ctx) (evs : Trace)
  | overflowed (ctx : Ctx) (evs : Trace)
  | rejectedCb (ctx : Ctx) (evs : Trace)
  | hardReturn (ctx : Ctx) (evs : Trace) (code : Int)
  deriving Repr

/-- The result of one byte of `lecp_parse`: the mutated context, the
callback trace of the byte, and `some code` when the byte made the
function return immediately. -/
structure StepOut where
  ctx : Ctx
  evs : Trace
  err : Option Int
  deriving Repr

/-- The shared reject tail of `lecp_parse`: the three labels issue a
FAILED callback (its return value is ignored) and return their code;
a `hardReturn` returns without the FAILED notification. -/
def StepCore.finish : StepCore → StepOut
  | .ok ctx evs => ⟨ctx, evs, none⟩
  | .badCoding ctx evs =>
    ⟨ctx, evs ++ [(ctx, LECPCB_FAILED)], some LECP_REJECT_BAD_CODING⟩
  | .overflowed ctx evs =>
    ⟨ctx, evs ++ [(ctx, LECPCB_FAILED)], some LECP_STACK_OVERFLOW⟩
  | .rejectedCb ctx evs =>
    ⟨ctx, evs ++ [(ctx, LECPCB_FAILED)], some LECP_REJECT_CALLBACK⟩
  | .hardReturn ctx evs code => ⟨ctx, evs, some code⟩

/-- `ex()`: arm the big-endian collector for `len` bytes.  Both
endianness branches of the C function make the COLLECT state assemble
the bytes big-endian into the destination member, which is fully
overwritten; the model therefore clears the accumulator here (the
`i2` path of the C code zeroes `u.u64` explicitly before calling
`ex`). -/
def exInto (ctx : Ctx) (len : Nat) : Ctx :=
  { ctx with item := 0, st := { ctx.st with s := LECP_COLLECT, collect_rem := len } }

/-- The `i2` label of `lecp_parse`: reserved minors fail, otherwise
collect `1 << (sm - 24)` argument bytes. -/
def stepI2 (ctx : Ctx) (sm : Nat) (evs : Trace) : StepCore :=
  if LWS_CBOR_RESERVED ≤ sm then .badCoding ctx evs
  else .ok (exInto ctx (2 ^ (sm - LWS_CBOR_1))) evs

/-- The `start_tag_enclosure` label: save the path cursor and push a
tag frame; an error from `lecp_push` is returned directly
(`if (ret) return ret;`) without the FAILED notification. -/
def stepTagEnclosure (cb : Lecb) (ctx : Ctx) (evs : Trace) : StepCore :=
  let ctx1 : Ctx := { ctx with st := { ctx.st with p := ctx.path.length } }
  let pr := lecp_push cb ctx1 LECPCB_TAG_START LECPCB_TAG_END LECP_OPC
  if pr.2.2 ≠ 0 then .hardReturn pr.1 (evs ++ pr.2.1) pr.2.2
  else .ok pr.1 (evs ++ pr.2.1)

/-- The `issue` label: a tag item opens its enclosure instead; other
scalars are delivered via `present` and then completed (the return
value of `lwcp_completed` is discarded at this call site). -/
def stepIssue (cb : Lecb) (ctx : Ctx) (evs : Trace) : StepCore :=
  if ctx.itemOpcode = LWS_CBOR_MAJTYP_TAG then
    stepTagEnclosure cb { ctx with st := { ctx.st with tag := ctx.item } } evs
  else
    if cb ctx ctx.present then .rejectedCb ctx (evs ++ [(ctx, ctx.present)])
    else
      let pr := lwcp_completed cb ctx false
      .ok pr.1 (evs ++ [(ctx, ctx.present)] ++ pr.2.1)

/-- Whether the BSTR/TSTR head should issue a START event:
`!ctx->sp || !ctx->st[ctx->sp - 1].intermediate`. -/
def strStartQ (ctx : Ctx) : Bool :=
  match ctx.stRest with
  | [] => true
  | f :: _ => !f.intermediate

/-- The BSTR/TSTR arm of the OPC state.  `toOff` is `0` for TSTR and
`LECPCB_VAL_BLOB_END - LECPCB_VAL_STR_END` for BSTR.  Note that the
return value of `lecp_push` for an indefinite head is discarded by
the source. -/
def stepString (cb : Lecb) (ctx0 : Ctx) (toOff sm : Nat) : StepCore :=
  let ctx : Ctx := { ctx0 with buf := [] }
  let evs0 : Trace :=
    if strStartQ ctx then [(ctx, LECPCB_VAL_STR_START + toOff)] else []
  if strStartQ ctx && cb ctx (LECPCB_VAL_STR_START + toOff) then
    .rejectedCb ctx evs0
  else
    if sm = 0 then
      let evs1 := evs0 ++ [(ctx, LECPCB_VAL_STR_END + toOff)]
      if cb ctx (LECPCB_VAL_STR_END + toOff) then .rejectedCb ctx evs1
      else
        let pr := lwcp_completed cb ctx false
        .ok pr.1 (evs1 ++ pr.2.1)
    else if sm < LWS_CBOR_1 then
      .ok { ctx with st := { ctx.st with indet := false, collect_rem := sm, s := LECP_COLLATE } } evs0
    else if sm < LWS_CBOR_RESERVED then
      stepI2 ctx sm evs0
    else if sm ≠ LWS_CBOR_INDETERMINITE then
      .badCoding ctx evs0
    else
      let ctx1 : Ctx := { ctx with st := { ctx.st with indet := true, p := ctx.path.length } }
      let pr := lecp_push cb ctx1 0 (LECPCB_VAL_STR_END + toOff) LECP_ONLY_SAME
      .ok pr.1 (evs0 ++ pr.2.1)

/-- The ARRAY arm of the OPC state after the path has been extended
with `[]` and re-matched (`ctxC` is the re-matched context): check
the index stack, count the new array level, issue ARRAY_START and
dispatch on the minor.  The return value of `lecp_push` at `push_a`
is discarded by the source. -/
def stepArrayAt (cb : Lecb) (ctxC : Ctx) (sm : Nat) : StepCore :=
  if LWS_LECP_MAX_INDEX_DEPTH ≤ ctxC.i.length + 1 then .overflowed ctxC []
  else
    let ctxD : Ctx := { ctxC with i := ctxC.i ++ [0] }
    let evs1 : Trace := [(ctxD, LECPCB_ARRAY_START)]
    if cb ctxD LECPCB_ARRAY_START then .rejectedCb ctxD evs1
    else if sm = 0 then
      let evs2 := evs1 ++ [(ctxD, LECPCB_ARRAY_END)]
      if cb ctxD LECPCB_ARRAY_END then .rejectedCb ctxD evs2
      else
        let ctxE : Ctx := { ctxD with path := ctxD.path.take ctxD.st.p, i := ctxD.i.dropLast }
        let ctxF := lecp_check_path_match ctxE
        let pr := lwcp_completed cb ctxF false
        .ok pr.1 (evs2 ++ pr.2.1)
    else if sm < LWS_CBOR_1 then
      let ctxE : Ctx := { ctxD with st := { ctxD.st with indet := false, collect_rem := sm } }
      let pr := lecp_push cb ctxE 0 LECPCB_ARRAY_END LECP_OPC
      .ok pr.1 (evs1 ++ pr.2.1)
    else if sm < LWS_CBOR_RESERVED then stepI2 ctxD sm evs1
    else if sm ≠ LWS_CBOR_INDETERMINITE then .badCoding ctxD evs1
    else
      let ctxE : Ctx := { ctxD with st := { ctxD.st with indet := true } }
      let pr := lecp_push cb ctxE 0 LECPCB_ARRAY_END LECP_OPC
      .ok pr.1 (evs1 ++ pr.2.1)

/-- The ARRAY arm of the OPC state.  Path-buffer or index-stack
exhaustion goes to `reject_overflow`; after the path-buffer check the
path gains the `[]` marks, matching is re-run and `stepArrayAt`
continues. -/
def stepArray (cb : Lecb) (ctx0 : Ctx) (sm : Nat) : StepCore :=
  let ctxA : Ctx := { ctx0 with buf := [] }
  if LWS_LECP_MAX_PATH ≤ ctxA.path.length + 3 then .overflowed ctxA []
  else
    stepArrayAt cb (lecp_check_path_match { ctxA with st := { ctxA.st with p := ctxA.path.length }, path := ctxA.path ++ [91, 93] }) sm

/-- The MAP arm of the OPC state after the path has been extended
with `.` and re-matched (`ctxC` is the re-matched context): issue
OBJECT_START and dispatch on the minor (definite maps count `2 * sm`
children: key/value pairs). -/
def stepMapAt (cb : Lecb) (ctxC : Ctx) (sm : Nat) : StepCore :=
  let evs1 : Trace := [(ctxC, LECPCB_OBJECT_START)]
  if cb ctxC LECPCB_OBJECT_START then .rejectedCb ctxC evs1
  else if sm = 0 then
    let evs2 := evs1 ++ [(ctxC, LECPCB_OBJECT_END)]
    if cb ctxC LECPCB_OBJECT_END then .rejectedCb ctxC evs2
    else
      let ctxD : Ctx := { ctxC with path := ctxC.path.take ctxC.st.p }
      let ctxE := lecp_check_path_match ctxD
      let pr := lwcp_completed cb ctxE false
      .ok pr.1 (evs2 ++ pr.2.1)
  else if sm < LWS_CBOR_1 then
    let ctxD : Ctx := { ctxC with st := { ctxC.st with indet := false, collect_rem := sm * 2 } }
    let pr := lecp_push cb ctxD 0 LECPCB_OBJECT_END LECP_OPC
    .ok pr.1 (evs1 ++ pr.2.1)
  else if sm < LWS_CBOR_RESERVED then stepI2 ctxC sm evs1
  else if sm ≠ LWS_CBOR_INDETERMINITE then .badCoding ctxC evs1
  else
    let ctxD : Ctx := { ctxC with st := { ctxC.st with indet := true } }
    let pr := lecp_push cb ctxD 0 LECPCB_OBJECT_END LECP_OPC
    .ok pr.1 (evs1 ++ pr.2.1)

/-- The MAP arm of the OPC state: path-buffer check, append `.`,
re-run matching and continue in `stepMapAt`. -/
def stepMap (cb : Lecb) (ctx0 : Ctx) (sm : Nat) : StepCore :=
  let ctxA : Ctx := { ctx0 with buf := [] }
  if LWS_LECP_MAX_PATH ≤ ctxA.path.length + 1 then .overflowed ctxA []
  else
    stepMapAt cb (lecp_check_path_match { ctxA with st := { ctxA.st with p := ctxA.path.length }, path := ctxA.path ++ [46] }) sm

/-- The TAG arm of the OPC state: an immediate minor is the tag
number and opens the enclosure at once, otherwise the number is
collected first. -/
def stepTag (cb : Lecb) (ctx : Ctx) (sm : Nat) : StepCore :=
  if sm < LWS_CBOR_1 then
    stepTagEnclosure cb
      { ctx with item := sm, st := { ctx.st with tag := sm } } []
  else stepI2 ctx sm []

/-- The major-7 arm of the OPC state: the named simples and floats,
SIMPLEX8, BREAK, and the default case which delivers any other minor
as VAL_SIMPLE (note: no completion walk in the default case). -/
def stepFloat (cb : Lecb) (ctx : Ctx) (sm : Nat) : StepCore :=
  if sm = LWS_CBOR_SWK_FALSE then
    stepIssue cb { ctx with present := LECPCB_VAL_FALSE } []
  else if sm = LWS_CBOR_SWK_TRUE then
    stepIssue cb { ctx with present := LECPCB_VAL_TRUE } []
  else if sm = LWS_CBOR_SWK_NULL then
    stepIssue cb { ctx with present := LECPCB_VAL_NULL } []
  else if sm = LWS_CBOR_SWK_UNDEFINED then
    stepIssue cb { ctx with present := LECPCB_VAL_UNDEFINED } []
  else if sm = LWS_CBOR_M7_SUBTYP_SIMPLE_X8 then
    .ok { ctx with st := { ctx.st with s := LECP_SIMPLEX8 } } []
  else if sm = LWS_CBOR_M7_SUBTYP_FLOAT16 then
    .ok (exInto { ctx with present := LECPCB_VAL_FLOAT16 } 2) []
  else if sm = LWS_CBOR_M7_SUBTYP_FLOAT32 then
    .ok (exInto { ctx with present := LECPCB_VAL_FLOAT32 } 4) []
  else if sm = LWS_CBOR_M7_SUBTYP_FLOAT64 then
    .ok (exInto { ctx with present := LECPCB_VAL_FLOAT64 } 8) []
  else if sm = LWS_CBOR_M7_BREAK then
    match ctx.stRest with
    | [] => .badCoding ctx []
    | f :: _ =>
      if !f.indet then .badCoding ctx []
      else
        let pr := lwcp_completed cb ctx true
        .ok pr.1 pr.2.1
  else
    let ctx1 : Ctx := { ctx with item := sm }
    if cb ctx1 LECPCB_VAL_SIMPLE then
      .rejectedCb ctx1 [(ctx1, LECPCB_VAL_SIMPLE)]
    else .ok ctx1 [(ctx1, LECPCB_VAL_SIMPLE)]

/-- The OPC state: split the head byte into major and minor and
dispatch (`st->opcode = ctx->item.opcode = c & 0xE0`). -/
def stepOPC (cb : Lecb) (ctx0 : Ctx) (c : Nat) : StepCore :=
  let opc := 32 * (c / 32)
  let sm := c % 32
  let ctx : Ctx := { ctx0 with st := { ctx0.st with opcode := opc }, itemOpcode := opc }
  if opc = LWS_CBOR_MAJTYP_UINT then
    let ctx1 : Ctx := { ctx with present := LECPCB_VAL_NUM_UINT }
    if sm < LWS_CBOR_1 then stepIssue cb { ctx1 with item := sm } []
    else stepI2 ctx1 sm []
  else if opc = LWS_CBOR_MAJTYP_INT_NEG then
    let ctx1 : Ctx := { ctx with present := LECPCB_VAL_NUM_INT }
    if sm < LWS_CBOR_1 then
      stepIssue cb { ctx1 with item := 2 ^ 64 - 1 - sm } []
    else stepI2 ctx1 sm []
  else if opc = LWS_CBOR_MAJTYP_BSTR then
    stepString cb ctx (LECPCB_VAL_BLOB_END - LECPCB_VAL_STR_END) sm
  else if opc = LWS_CBOR_MAJTYP_TSTR then
    stepString cb ctx 0 sm
  else if opc = LWS_CBOR_MAJTYP_ARRAY then stepArray cb ctx sm
  else if opc = LWS_CBOR_MAJTYP_MAP then stepMap cb ctx sm
  else if opc = LWS_CBOR_MAJTYP_TAG then stepTag cb ctx sm
  else stepFloat cb ctx sm

/-- The COLLECT state: append the byte to the big-endian accumulator
and decrement the remaining count (`--st->collect_rem`, which is at
least 1 whenever the parser enters COLLECT); when it reaches zero,
dispatch on the opcode that requested the argument. -/
def stepCOLLECT (cb : Lecb) (ctx0 : Ctx) (c : Nat) : StepCore :=
  let rem := ctx0.st.collect_rem
  let ctxA : Ctx := { ctx0 with item := ctx0.item + c * 256 ^ (rem - 1), st := { ctx0.st with collect_rem := rem - 1 } }
  if rem - 1 ≠ 0 then .ok ctxA []
  else
    let ctx : Ctx := { ctxA with buf := [] }
    if ctx.st.opcode = LWS_CBOR_MAJTYP_BSTR ∨
       ctx.st.opcode = LWS_CBOR_MAJTYP_TSTR then
      .ok { ctx with st := { ctx.st with collect_rem := ctx.item, s := LECP_COLLATE } } []
    else if ctx.st.opcode = LWS_CBOR_MAJTYP_ARRAY then
      let ctx1 : Ctx := { ctx with st := { ctx.st with collect_rem := ctx.item } }
      let pr := lecp_push cb ctx1 0 LECPCB_ARRAY_END LECP_OPC
      .ok pr.1 pr.2.1
    else if ctx.st.opcode = LWS_CBOR_MAJTYP_MAP then
      let ctx1 : Ctx := { ctx with st := { ctx.st with collect_rem := ctx.item * 2 % 2 ^ 64 } }
      let pr := lecp_push cb ctx1 0 LECPCB_OBJECT_END LECP_OPC
      .ok pr.1 pr.2.1
    else if ctx.st.opcode = LWS_CBOR_MAJTYP_TAG then
      stepTagEnclosure cb { ctx with st := { ctx.st with tag := ctx.item } } []
    else
      let ctx1 : Ctx := { ctx with item := if ctx.st.opcode = LWS_CBOR_MAJTYP_INT_NEG then 2 ^ 64 - 1 - ctx.item else ctx.item }
      stepIssue cb ctx1 []

/-- The SIMPLEX8 state: an extension byte at or below 31 duplicates
an implicit simple value and is refused (RFC 8949 3.3); otherwise
VAL_SIMPLE is delivered and the item completed. -/
def stepSIMPLEX8 (cb : Lecb) (ctx : Ctx) (c : Nat) : StepCore :=
  if c ≤ LWS_CBOR_INDETERMINITE then .badCoding ctx []
  else
    let ctx1 : Ctx := { ctx with item := c }
    if cb ctx1 LECPCB_VAL_SIMPLE then
      .rejectedCb ctx1 [(ctx1, LECPCB_VAL_SIMPLE)]
    else
      let pr := lwcp_completed cb ctx1 false
      .ok pr.1 ([(ctx1, LECPCB_VAL_SIMPLE)] ++ pr.2.1)

/-- Whether the spilling string is a map key:
`ctx->sp && parent->opcode == MAP && !(parent->ordinal & 1)`. -/
def spillIsKey (ctx : Ctx) : Bool :=
  match ctx.stRest with
  | [] => false
  | f :: _ =>
    f.opcode == LWS_CBOR_MAJTYP_MAP && f.ordinal % 2 == 0

/-- Whether the map parent has completed children
(`lwcp_st_parent(ctx)->ordinal` non-zero), i.e. a previous key must
be erased from the path. -/
def parentOrdinalNZ (ctx : Ctx) : Bool :=
  match ctx.stRest with
  | [] => false
  | f :: _ => f.ordinal != 0

/-- The event-emitting tail of a COLLATE spill: pick STR/BLOB via
`ctx->item.opcode`, demote END to CHUNK when more content is coming
(`o--`), mirror that in the parent's `intermediate` flag, deliver the
event, reset the buffer and state, and complete on a final chunk. -/
def stepSpillEmit (cb : Lecb) (ctx0 : Ctx) : StepCore :=
  let toOff :=
    if ctx0.itemOpcode = LWS_CBOR_MAJTYP_BSTR then
      LECPCB_VAL_BLOB_END - LECPCB_VAL_STR_END
    else 0
  let more := decide (ctx0.st.collect_rem ≠ 0) || lwcp_is_indet_string ctx0
  let ctx1 : Ctx :=
    match ctx0.stRest with
    | [] => ctx0
    | f :: r => { ctx0 with stRest := { f with intermediate := more } :: r }
  let o := if more then LECPCB_VAL_STR_END + toOff - 1
           else LECPCB_VAL_STR_END + toOff
  if cb ctx1 o then .rejectedCb ctx1 [(ctx1, o)]
  else
    let ctx2 : Ctx := { ctx1 with buf := [], st := { ctx1.st with s := LECP_OPC } }
    if more then .ok ctx2 [(ctx1, o)]
    else
      let pr := lwcp_completed cb ctx2 false
      .ok pr.1 ([(ctx1, o)] ++ pr.2.1)

/-- A COLLATE spill: if the chunk is a map key, erase any previous
key, append the collated bytes to the path (checking the path-buffer
size first) and re-run matching; then emit the chunk event. -/
def stepSpill (cb : Lecb) (ctx0 : Ctx) : StepCore :=
  if spillIsKey ctx0 then
    let ctx1 : Ctx := { ctx0 with path := if parentOrdinalNZ ctx0 then ctx0.path.take ctx0.st.p else ctx0.path }
    let ctx2 : Ctx := { ctx1 with st := { ctx1.st with p := ctx1.path.length } }
    if LWS_LECP_MAX_PATH < ctx2.path.length + ctx2.buf.length then
      .overflowed ctx2 []
    else
      stepSpillEmit cb (lecp_check_path_match
        { ctx2 with path := ctx2.path ++ ctx2.buf })
  else stepSpillEmit cb ctx0

/-- The COLLATE state: buffer the content byte, decrement the chunk
remainder if non-zero, and spill at a chunk boundary or when the
content buffer is full. -/
def stepCOLLATE (cb : Lecb) (ctx0 : Ctx) (c : Nat) : StepCore :=
  let ctxA : Ctx := { ctx0 with buf := ctx0.buf ++ [c] }
  let ctxB : Ctx :=
    if ctxA.st.collect_rem ≠ 0 then
      { ctxA with st := { ctxA.st with collect_rem := ctxA.st.collect_rem - 1 } }
    else ctxA
  if ctxB.buf.length ≠ LECP_STRING_CHUNK ∧ ctxB.st.collect_rem ≠ 0 then
    .ok ctxB []
  else stepSpill cb ctxB

/-- The ONLY_SAME state: inner heads of an indefinite-length string.
The `[]` case is the `assert(0); return LECP_STACK_OVERFLOW;` guard.
A BREAK requires an indefinite parent and completes it (a callback
rejection from the walk goes to `reject_callback`).  The frame-versus
parent opcode comparison is transcribed as in the source (the frame's
opcode was copied from the parent by `lecp_push`; the inner head
byte's own major type is not consulted).  Indefinite inner chunks and
reserved minors are refused; short lengths collate; 24..27 collect a
length. -/
def stepONLYSAME (cb : Lecb) (ctx : Ctx) (c : Nat) : StepCore :=
  match ctx.stRest with
  | [] => .hardReturn ctx [] LECP_STACK_OVERFLOW
  | f :: _ =>
    if c = LWS_CBOR_MAJTYP_FLOAT + LWS_CBOR_M7_BREAK then
      if !f.indet then .badCoding ctx []
      else
        let pr := lwcp_completed cb ctx true
        if pr.2.2 ≠ 0 then .rejectedCb pr.1 pr.2.1
        else .ok pr.1 pr.2.1
    else if ctx.st.opcode ≠ f.opcode then .badCoding ctx []
    else
      let sm := c % 32
      if sm = LWS_CBOR_INDETERMINITE then .badCoding ctx []
      else if sm < LWS_CBOR_1 then
        .ok { ctx with st := { ctx.st with indet := false, collect_rem := sm, s := LECP_COLLATE } } []
      else if LWS_CBOR_RESERVED ≤ sm then .badCoding ctx []
      else stepI2 ctx sm []

/-- One byte of `lecp_parse`: reduce the byte to its 8-bit value and
dispatch on the top frame's sub-state; the final arm is the
`default: assert(0); return -1;` of the C switch. -/
def lecpStepCore (cb : Lecb) (ctx : Ctx) (c0 : Nat) : StepCore :=
  let c := c0 % 256
  if ctx.st.s = LECP_OPC then stepOPC cb ctx c
  else if ctx.st.s = LECP_COLLECT then stepCOLLECT cb ctx c
  else if ctx.st.s = LECP_SIMPLEX8 then stepSIMPLEX8 cb ctx c
  else if ctx.st.s = LECP_COLLATE then stepCOLLATE cb ctx c
  else if ctx.st.s = LECP_ONLY_SAME then stepONLYSAME cb ctx c
  else .hardReturn ctx [] (-1)

/-- One byte of `lecp_parse`, with the common reject tail applied. -/
def lecpStep (cb : Lecb) (ctx : Ctx) (c : Nat) : StepOut :=
  (lecpStepCore cb ctx c).finish

/-- The end-of-chunk return value of `lecp_parse`: 0 when the stack
is empty and the sub-state is OPC, otherwise `LECP_CONTINUE`. -/
def lecp_retcode (ctx : Ctx) : Int :=
  if ctx.stRest = [] ∧ ctx.st.s = LECP_OPC then 0 else LECP_CONTINUE

/-- `lecp_parse`: feed a chunk of bytes, one at a time, stopping at
the first erroring byte; returns the final context, the callback
trace, and the return code. -/
def lecp_parse (cb : Lecb) : Ctx → List Nat → Ctx × Trace × Int
  | ctx, [] => (ctx, [], lecp_retcode ctx)
  | ctx, c :: rest =>
    let so := lecpStep cb ctx c
    match so.err with
    | some e => (so.ctx, so.evs, e)
    | none =>
      let pr := lecp_parse cb so.ctx rest
      (pr.1, so.evs ++ pr.2.1, pr.2.2)

/-- `lecp_construct`: zero the context (the C memset spares only the
content buffer, which `npos = 0` makes invisible), install the paths,
set the initial sub-state and notify CONSTRUCTED; the callback's
return value is discarded. -/
def lecp_construct (cb : Lecb) (paths : List (List Nat)) : Ctx × Trace :=
  let ctx : Ctx := { paths := paths }
  (ctx, [(ctx, LECPCB_CONSTRUCTED)])

/-- `lecp_destruct`: no state to release; notify DESTRUCTED (return
value discarded). -/
def lecp_destruct (cb : Lecb) (ctx : Ctx) : Ctx × Trace :=
  (ctx, [(ctx, LECPCB_DESTRUCTED)])

/-- `lecp_change_callback`: DESTRUCTED to the old callback, install
the new one, CONSTRUCTED to it; both return values discarded. -/
def lecp_change_callback (cbOld cbNew : Lecb) (ctx : Ctx) : Ctx × Trace :=
  (ctx, [(ctx, LECPCB_DESTRUCTED), (ctx, LECPCB_CONSTRUCTED)])

/-- Feeding a partition of an input: each chunk is fed in order to
`lecp_parse` on the running context; the traces concatenate and the
returned code is that of the last call (for the empty partition, the
end-of-chunk return of the untouched context). -/
def feedChunks (cb : Lecb) : Ctx → List (List Nat) → Ctx × Trace × Int
  | ctx, [] => (ctx, [], lecp_retcode ctx)
  | ctx, [c] => lecp_parse cb ctx c
  | ctx, c :: c2 :: cs =>
    let pr := lecp_parse cb ctx c
    let pr2 := feedChunks cb pr.1 (c2 :: cs)
    (pr2.1, pr.2.1 ++ pr2.2.1, pr2.2.2)

/-- The never-rejecting callback. -/
def cbNone : Lecb := fun _ _ => false

/-- A freshly constructed context with no registered patterns. -/
def ctx0 : Ctx := (lecp_construct cbNone []).1

/-- A freshly constructed context with the given patterns. -/
def ctxWith (paths : List (List Nat)) : Ctx := (lecp_construct cbNone paths).1

/-- A callback that rejects exactly the TAG_START event. -/
def cbRejTag : Lecb := fun _ e => e == LECPCB_TAG_START

/-- Big-endian byte rendering of `v` in `n` bytes (the wire form of a
CBOR argument of that width). -/
def beBytes : Nat → Nat → List Nat
  | 0, _ => []
  | n + 1, v => v / 256 ^ n :: beBytes n (v % 256 ^ n)

/-- Modelled from the spec: the per-pattern match of section 4.D in
the spec's own words.  Two cursors walk the live path and the
pattern; a literal character matches itself; a `*` (42) consumes the
run of path characters up to but not including the next `.` (46), or
everything when the `*` is pattern-final, and the offset where it
began consuming is recorded; the match succeeds only if both cursors
reach their ends simultaneously.  Returns (matched, wildcard
offsets). -/
def specPatScan : List Nat → List Nat → Nat → Bool × List Nat
  | [], [], _ => (true, [])
  | [], _ :: _, _ => (false, [])
  | _ :: _, [], _ => (false, [])
  | pc :: pr, qc :: qr, off =>
    if qc = 42 then
      let rem := if qr = [] then ([] : List Nat)
                 else (pc :: pr).dropWhile (fun x => x ≠ 46)
      let res := specPatScan rem qr (off + ((pc :: pr).length - rem.length))
      (res.1, off :: res.2)
    else if pc = qc then specPatScan pr qr (off + 1)
    else (false, [])

/-- The context carried by a `StepCore` outcome. -/
def StepCore.rctx : StepCore → Ctx
  | .ok c _ => c
  | .badCoding c _ => c
  | .overflowed c _ => c
  | .rejectedCb c _ => c
  | .hardReturn c _ _ => c

/-- The trace carried by a `StepCore` outcome. -/
def StepCore.revs : StepCore → Trace
  | .ok _ e => e
  | .badCoding _ e => e
  | .overflowed _ e => e
  | .rejectedCb _ e => e
  | .hardReturn _ e _ => e

/-- A concrete context used to exercise the matcher: live path .a
with registered patterns .b and .* (in that order). -/
def ctxC6W : Ctx := { paths := [[46, 98], [46, 42]], path := [46, 97] }

/-- The context produced by `lecp_pop` when the popped-to frame is
`fr` over `rest`: restore the frame, conditionally pop the
array-index stack, truncate the path to the saved cursor and re-run
matching. -/
def popCtx (ctx : Ctx) (fr : Frame) (rest : List Frame) : Ctx :=
  lecp_check_path_match { ctx with st := fr, stRest := rest, i := if fr.pop_iss = LECPCB_ARRAY_END then ctx.i.dropLast else ctx.i, path := ctx.path.take fr.p }

/-- A trace with no FAILED notification in it. -/
def EvsOk (t : Trace) : Prop := ∀ e ∈ t, e.2 ≠ LECPCB_FAILED

/-- Frame sanity: the sub-state is one of the five machine states and
the deferred pop event is never FAILED.  Every frame the parser
builds satisfies this. -/
def Frame.Wf (f : Frame) : Prop := f.s < 5 ∧ f.pop_iss ≠ LECPCB_FAILED

/-- Context sanity: all frames are sane and the pending scalar event
is never FAILED.  Holds for a fresh context and is preserved by every
non-erroring parse step. -/
def Ctx.Wf (c : Ctx) : Prop :=
  c.st.Wf ∧ c.present ≠ LECPCB_FAILED ∧ ∀ f ∈ c.stRest, f.Wf

/-- The invariant carried by the (context, trace, return) triples of
`lecp_pop`, `lwcp_walk` and `lwcp_completed` when entered with a sane
context whose match index is `pm`: no FAILED event, a sane result
context, a preserved active match, and a return of 0 or the
callback-reject code. -/
def WalkGood (pm : Nat) (r : Ctx × Trace × Int) : Prop :=
  EvsOk r.2.1 ∧ r.1.Wf ∧ (pm ≠ 0 → r.1.path_match = pm) ∧
  (r.2.2 = 0 ∨ r.2.2 = LECP_REJECT_CALLBACK)

/-- The invariant a single byte's outcome provides (for a sane input
context): no FAILED event inside the branch trace, sanity of the
surviving context on the fall-through outcome, and direct returns
only with the callback-reject or stack-overflow codes. -/
def StepCore.Good (pm : Nat) : StepCore → Prop
  | .ok c evs => EvsOk evs ∧ c.Wf ∧ (pm ≠ 0 → c.path_match = pm)
  | .badCoding c evs => EvsOk evs ∧ (pm ≠ 0 → c.path_match = pm)
  | .overflowed c evs => EvsOk evs ∧ (pm ≠ 0 → c.path_match = pm)
  | .rejectedCb c evs => EvsOk evs ∧ (pm ≠ 0 → c.path_match = pm)
  | .hardReturn c evs code =>
    EvsOk evs ∧ (pm ≠ 0 → c.path_match = pm) ∧
    (code = LECP_REJECT_CALLBACK ∨ code = LECP_STACK_OVERFLOW)

/-- The invariant one byte's `StepOut` satisfies for a sane input
context with match index `pm`: the match index is preserved; and the
outcome is either a non-erroring step with a clean trace and a sane
context, an erroring step whose trace ends in the single FAILED
notification (the three reject labels), or an erroring step with a
clean trace whose code is the callback or overflow code (the direct
returns that bypass the labels). -/
def StepOutGood (pm : Nat) (so : StepOut) : Prop :=
  (pm ≠ 0 → so.ctx.path_match = pm) ∧
  ((so.err = none ∧ EvsOk so.evs ∧ so.ctx.Wf) ∨
   (∃ evs0, so.evs = evs0 ++ [(so.ctx, LECPCB_FAILED)] ∧ EvsOk evs0 ∧
     (so.err = some LECP_REJECT_BAD_CODING ∨ so.err = some LECP_REJECT_CALLBACK ∨
      so.err = some LECP_STACK_OVERFLOW)) ∨
   (EvsOk so.evs ∧ (so.err = some LECP_REJECT_CALLBACK ∨
      so.err = some LECP_STACK_OVERFLOW)))

/-- The invariant a whole `lecp_parse` call satisfies for a sane
input context with match index `pm` (same three-way classification as
`StepOutGood`, with the non-erroring case returning 0 or CONTINUE). -/
def ParseGood (pm : Nat) (r : Ctx × Trace × Int) : Prop :=
  (pm ≠ 0 → r.1.path_match = pm) ∧
  ((EvsOk r.2.1 ∧ r.1.Wf ∧ (r.2.2 = 0 ∨ r.2.2 = LECP_CONTINUE)) ∨
   (∃ evs0, r.2.1 = evs0 ++ [(r.1, LECPCB_FAILED)] ∧ EvsOk evs0 ∧
     (r.2.2 = LECP_REJECT_BAD_CODING ∨ r.2.2 = LECP_REJECT_CALLBACK ∨
      r.2.2 = LECP_STACK_OVERFLOW)) ∨
   (EvsOk r.2.1 ∧ (r.2.2 = LECP_REJECT_CALLBACK ∨ r.2.2 = LECP_STACK_OVERFLOW)))

/-- A non-erroring `lecp_parse` return: 0 (document complete) or
CONTINUE (more bytes wanted). -/
def RetOk (r : Int) : Prop := r = 0 ∨ r = LECP_CONTINUE

/-- The star-consumption loop consumes the whole remaining path when
the star is pattern-final. -/
theorem starRun_true (p : List Nat) (off : Nat) :
    starRun p off true = ([], off + p.length) := by
  induction p generalizing off with
  | nil => simp [starRun]
  | cons c p ih => simp [starRun, ih, Nat.add_assoc, Nat.add_comm 1]

/-- The star-consumption loop consumes up to but not including the
next `.` when the pattern continues. -/
theorem starRun_false (p : List Nat) (off : Nat) :
    starRun p off false =
      (p.dropWhile (fun x => x ≠ 46),
       off + (p.length - (p.dropWhile (fun x => x ≠ 46)).length)) := by
  induction p generalizing off with
  | nil => simp [starRun]
  | cons c p ih =>
    by_cases hc : c = 46
    · simp [starRun, hc, List.dropWhile_cons]
    · have hstep : starRun (c :: p) off false = starRun p (off + 1) false := by
        simp [starRun, hc]
      have hlen : (p.dropWhile (fun x => x ≠ 46)).length ≤ p.length :=
        (List.dropWhile_sublist _).length_le
      rw [hstep, ih, List.dropWhile_cons]
      rw [if_pos (by simp [hc])]
      simp only [Prod.mk.injEq, List.length_cons, true_and]
      omega

/-- The source's two-cursor scan computes exactly the spec-worded
scan `specPatScan`, accumulating the wildcard offsets. -/
theorem scanPat_eq_spec (q p : List Nat) (off : Nat) (w : List Nat) :
    scanPat p q off w = ((specPatScan p q off).1, w ++ (specPatScan p q off).2) := by
  induction q generalizing p off w with
  | nil => cases p <;> simp [scanPat, specPatScan]
  | cons qc qr ih =>
    cases p with
    | nil => simp [scanPat, specPatScan]
    | cons pc pr =>
      by_cases hqc : qc = 42
      · simp only [scanPat, specPatScan, hqc, if_pos rfl]
        by_cases hqr : qr = ([] : List Nat)
        · subst hqr
          simp only [decide_True, starRun_true, ih, if_pos rfl]
          simp [List.append_assoc]
        · simp only [hqr, decide_False, starRun_false, if_neg hqr, ih]
          simp [List.append_assoc]
      · by_cases hpq : pc = qc
        · simp [scanPat, specPatScan, hqc, hpq, ih]
        · simp [scanPat, specPatScan, hqc, hpq]

/-- When no registered pattern spec-matches the live path, the
pattern loop finds nothing. -/
theorem findPat_none (qs : List (List Nat)) (p : List Nat) (n : Nat)
    (h : ∀ q ∈ qs, (specPatScan p q 0).1 = false) : findPat qs p n = none := by
  induction qs generalizing n with
  | nil => rfl
  | cons q qs ih =>
    have hq := h q (by simp)
    simp only [findPat, scanPat_eq_spec, hq, Bool.false_eq_true, if_false]
    exact ih _ (fun x hx => h x (by simp [hx]))

/-- When pattern `j` is the first spec-match, the pattern loop finds
index `n + j` together with that pattern's wildcard offsets. -/
theorem findPat_some (qs : List (List Nat)) (p : List Nat) (n j : Nat)
    (hj : j < qs.length)
    (hyes : (specPatScan p (qs.getD j []) 0).1 = true)
    (hno : ∀ k, k < j → (specPatScan p (qs.getD k []) 0).1 = false) :
    findPat qs p n = some (n + j, (specPatScan p (qs.getD j []) 0).2) := by
  induction qs generalizing n j with
  | nil => simp at hj
  | cons q qs ih =>
    cases j with
    | zero =>
      simp only [List.getD_cons_zero] at hyes
      simp [findPat, scanPat_eq_spec, hyes]
    | succ j =>
      have hq := hno 0 (Nat.succ_pos _)
      simp only [List.getD_cons_zero] at hq
      simp only [findPat, scanPat_eq_spec, hq, Bool.false_eq_true, if_false]
      simp only [List.getD_cons_succ] at hyes ⊢
      have := ih (n + 1) j (by simpa using hj) hyes
        (fun k hk => by simpa using hno (k + 1) (by omega))
      rw [this]
      congr 2
      omega

/-- C6: while no match is active, `lecp_check_path_match` records
the 1-based index of the first registered pattern that matches the
live path under the spec-worded two-cursor scan (0 when none
matches, with the wildcard store cleared), together with the current
path length and the offsets where each `*` of the winning pattern
began consuming.  The hypotheses state that the registered patterns
are C strings (no interior NUL) and that their number fits the
count_paths byte, the representable situations of the C surface. -/
theorem c6_theorem (ctx : Ctx) (h0 : ctx.path_match = 0)
    (hq : ∀ q ∈ ctx.paths, (0 : Nat) ∉ q) (hcnt : ctx.paths.length < 256) :
    ((∀ q ∈ ctx.paths, (specPatScan (pathLive ctx.path) q 0).1 = false) →
      (lecp_check_path_match ctx).path_match = 0 ∧
      (lecp_check_path_match ctx).wild = []) ∧
    (∀ j, j < ctx.paths.length →
      (specPatScan (pathLive ctx.path) (ctx.paths.getD j []) 0).1 = true →
      (∀ k, k < j →
        (specPatScan (pathLive ctx.path) (ctx.paths.getD k []) 0).1 = false) →
      (lecp_check_path_match ctx).path_match = j + 1 ∧
      (lecp_check_path_match ctx).path_match_len = ctx.path.length ∧
      (lecp_check_path_match ctx).wild =
        (specPatScan (pathLive ctx.path) (ctx.paths.getD j []) 0).2) := by
  constructor
  · intro hnone
    unfold lecp_check_path_match
    rw [if_neg (by simp [h0])]
    rw [findPat_none _ _ _ hnone]
    simp [h0]
  · intro j hj hyes hno
    unfold lecp_check_path_match
    rw [if_neg (by simp [h0])]
    rw [findPat_some _ _ 0 j hj hyes hno]
    simp

/-- C6 witness: on the context with live path .a and patterns
[.b, .*], the recorded match is the 1-based index 2 of the first
matching pattern .*, the match length is the path length 2, and the
wildcard store holds offset 1, where the `*` began consuming. -/
theorem c6_witness :
    (lecp_check_path_match ctxC6W).path_match = 2 ∧
    (lecp_check_path_match ctxC6W).path_match_len = 2 ∧
    (lecp_check_path_match ctxC6W).wild = [1] := by
  have h := (c6_theorem ctxC6W (by decide) (by decide) (by decide)).2 1
    (by decide) (by decide) (by decide)
  refine ⟨h.1, h.2.1, ?_⟩
  rw [h.2.2]
  decide

/-- C1 counterexample: the claim says every reject path delivers
exactly one FAILED event before the error return; but with a callback
that rejects TAG_START, feeding the single tag head byte 0xC0 makes
`lecp_parse` return `LECP_REJECT_CALLBACK` through the
`start_tag_enclosure` path (`if (ret) return ret;`) with no FAILED
notification at all. -/
theorem c1_counterexample :
    (lecp_parse cbRejTag ctx0 [0xc0]).2.2 = LECP_REJECT_CALLBACK ∧
    (lecp_parse cbRejTag ctx0 [0xc0]).2.1.map Prod.snd = [LECPCB_TAG_START] ∧
    LECPCB_FAILED ∉ (lecp_parse cbRejTag ctx0 [0xc0]).2.1.map Prod.snd := by
  decide

/-- C2 counterexample: the claim says head bytes with minor 28..30
fail with BadCoding for every major type including 7, and that
major-7 minors 0..19 fail likewise with no event; but 0xFC (major 7,
minor 28) and 0xE5 (major 7, minor 5) are both delivered as
VAL_SIMPLE events and return 0. -/
theorem c2_counterexample :
    (lecp_parse cbNone ctx0 [0xfc]).2.2 = 0 ∧
    (lecp_parse cbNone ctx0 [0xfc]).2.1.map Prod.snd = [LECPCB_VAL_SIMPLE] ∧
    (lecp_parse cbNone ctx0 [0xe5]).2.2 = 0 ∧
    (lecp_parse cbNone ctx0 [0xe5]).2.1.map Prod.snd = [LECPCB_VAL_SIMPLE] := by
  decide

/-- C2 amended: for major types 0..6 a minor of 28..30 does fail with
BadCoding (with the FAILED notification last); a major-7 head byte
with minor in 0..19 or 28..30 is instead delivered as a VAL_SIMPLE
event carrying the minor as its value, and does not fail. -/
theorem c2_amended (m k sm : Nat) (hm : m < 7) (hk : k < 3)
    (hsm : sm < 31) (hrange : sm < 20 ∨ 28 ≤ sm) :
    ((lecp_parse cbNone ctx0 [32 * m + 28 + k]).2.2 = LECP_REJECT_BAD_CODING ∧
     ((lecp_parse cbNone ctx0 [32 * m + 28 + k]).2.1.map Prod.snd).getLast? =
       some LECPCB_FAILED) ∧
    ((lecp_parse cbNone ctx0 [224 + sm]).2.2 = 0 ∧
     (lecp_parse cbNone ctx0 [224 + sm]).2.1.map Prod.snd = [LECPCB_VAL_SIMPLE] ∧
     (lecp_parse cbNone ctx0 [224 + sm]).2.1.map (fun e => e.1.item) = [sm]) := by
  refine ⟨?_, ?_⟩
  · have h : ∀ m, m < 7 → ∀ k, k < 3 →
        (lecp_parse cbNone ctx0 [32 * m + 28 + k]).2.2 = LECP_REJECT_BAD_CODING ∧
        ((lecp_parse cbNone ctx0 [32 * m + 28 + k]).2.1.map Prod.snd).getLast? =
          some LECPCB_FAILED := by decide
    exact h m hm k hk
  · have h : ∀ sm, sm < 31 → ((sm < 20 ∨ 28 ≤ sm) →
        (lecp_parse cbNone ctx0 [224 + sm]).2.2 = 0 ∧
        (lecp_parse cbNone ctx0 [224 + sm]).2.1.map Prod.snd = [LECPCB_VAL_SIMPLE] ∧
        (lecp_parse cbNone ctx0 [224 + sm]).2.1.map (fun e => e.1.item) = [sm]) := by
      decide
    exact h sm hsm hrange

/-- C2 amended witness at m = 0, k = 0, sm = 0 (head bytes 0x1C and
0xE0). -/
theorem c2_amended_witness :
    ((lecp_parse cbNone ctx0 [28]).2.2 = LECP_REJECT_BAD_CODING ∧
     ((lecp_parse cbNone ctx0 [28]).2.1.map Prod.snd).getLast? =
       some LECPCB_FAILED) ∧
    ((lecp_parse cbNone ctx0 [224]).2.2 = 0 ∧
     (lecp_parse cbNone ctx0 [224]).2.1.map Prod.snd = [LECPCB_VAL_SIMPLE] ∧
     (lecp_parse cbNone ctx0 [224]).2.1.map (fun e => e.1.item) = [0]) :=
  c2_amended 0 0 0 (by decide) (by decide) (by decide) (by decide)

/-- C3, evaluation at the failing input 5F 81: inside an indefinite
byte string the inner head 0x81 (major type ARRAY) is accepted as a
one-byte chunk (the parser enters COLLATE with one byte to collect)
and `lecp_parse` returns Continue, although both the claim and the
source's own comments (\"Fragments have to be of the same type as the
outer opcode\") require BadCoding.  The second group shows a later
inner head of major TSTR (0x61) inside the same indefinite BSTR being
accepted too and even delivered as a text-family chunk event. -/
theorem c3_theorem :
    ((lecp_parse cbNone ctx0 [0x5f, 0x81]).2.2 = LECP_CONTINUE ∧
     (lecp_parse cbNone ctx0 [0x5f, 0x81]).2.1.map Prod.snd =
       [LECPCB_VAL_BLOB_START] ∧
     (lecp_parse cbNone ctx0 [0x5f, 0x81]).1.st.s = LECP_COLLATE ∧
     (lecp_parse cbNone ctx0 [0x5f, 0x81]).1.st.collect_rem = 1) ∧
    ((lecp_parse cbNone ctx0 [0x5f, 0x42, 1, 2, 0x61, 0x61]).2.2 =
       LECP_CONTINUE ∧
     (lecp_parse cbNone ctx0 [0x5f, 0x42, 1, 2, 0x61, 0x61]).2.1.map Prod.snd =
       [LECPCB_VAL_BLOB_START, LECPCB_VAL_BLOB_CHUNK, LECPCB_VAL_STR_CHUNK]) := by
  decide

/-- C4, evaluation at the failing input of twelve nested map heads
(0xA1 x 12): the twelfth `lecp_push` refuses with
LECP_STACK_OVERFLOW, but the `push_m` call site discards that return
value, so `lecp_parse` keeps going and returns Continue instead of
the Overflow error; the stack stays one below the limit.  (No
out-of-bounds write happens: the push refuses before mutating.) -/
theorem c4_theorem :
    (lecp_parse cbNone ctx0 (List.replicate 12 0xa1)).2.2 = LECP_CONTINUE ∧
    (lecp_parse cbNone ctx0 (List.replicate 12 0xa1)).2.1.map Prod.snd =
      List.replicate 12 LECPCB_OBJECT_START ∧
    (lecp_parse cbNone ctx0 (List.replicate 12 0xa1)).1.stRest.length = 11 := by
  decide

/-- C5 counterexample: feeding 1C 00 whole delivers [FAILED] and
returns BadCoding, but feeding the partition [1C], [00] delivers
[FAILED, VAL_NUM_UINT] with final return 0 - the event sequence and
the final return code both differ from the single call. -/
theorem c5_counterexample :
    (lecp_parse cbNone ctx0 [0x1c, 0x00]).2.1.map Prod.snd = [LECPCB_FAILED] ∧
    (lecp_parse cbNone ctx0 [0x1c, 0x00]).2.2 = LECP_REJECT_BAD_CODING ∧
    (feedChunks cbNone ctx0 [[0x1c], [0x00]]).2.1.map Prod.snd =
      [LECPCB_FAILED, LECPCB_VAL_NUM_UINT] ∧
    (feedChunks cbNone ctx0 [[0x1c], [0x00]]).2.2 = 0 := by
  decide

/-- C7 counterexample: with the single pattern .a, parsing the map
A1 61 61 00 records match 1 while the key \"a\" is live; the closing
pop truncates the path to empty (below the recorded match length 2)
and re-runs the matcher, yet the match is not released: `path_match`
is still 1 although the pattern does not match the truncated path. -/
theorem c7_counterexample :
    (lecp_parse cbNone (ctxWith [[46, 97]]) [0xa1, 0x61, 0x61, 0x00]).1.path =
      [] ∧
    (lecp_parse cbNone (ctxWith [[46, 97]])
      [0xa1, 0x61, 0x61, 0x00]).1.path_match = 1 ∧
    (lecp_parse cbNone (ctxWith [[46, 97]])
      [0xa1, 0x61, 0x61, 0x00]).1.path_match_len = 2 ∧
    (lecp_parse cbNone (ctxWith [[46, 97]]) [0xa1, 0x61, 0x61, 0x00]).2.2 = 0 ∧
    (specPatScan [] [46, 97] 0).1 = false := by
  decide

/-- C8 counterexample: a NEGINT with the 8-byte argument 2^64 - 1
(bytes 3B FF FF FF FF FF FF FF FF) is delivered with
`item.u.i64 = 0`, not the claimed -1 - (2^64 - 1), which is not even
representable in the 64-bit item. -/
theorem c8_counterexample :
    (lecp_parse cbNone ctx0 (0x3b :: List.replicate 8 0xff)).2.1.map
      (fun e => e.1.item) = [0] ∧
    (lecp_parse cbNone ctx0 (0x3b :: List.replicate 8 0xff)).2.1.map Prod.snd =
      [LECPCB_VAL_NUM_INT] ∧
    (lecp_parse cbNone ctx0 (0x3b :: List.replicate 8 0xff)).2.2 = 0 ∧
    i64view 0 ≠ -1 - (2 ^ 64 - 1 : Int) := by
  decide

/-- C9 counterexample: feeding 00 to a fresh context delivers only
VAL_NUM_UINT - no COMPLETE event exists anywhere in the trace,
against the claimed \"VAL_NUM_UINT(0), COMPLETE\". -/
theorem c9_counterexample :
    (lecp_parse cbNone ctx0 [0x00]).2.1.map Prod.snd = [LECPCB_VAL_NUM_UINT] ∧
    LECPCB_COMPLETE ∉ (lecp_parse cbNone ctx0 [0x00]).2.1.map Prod.snd := by
  decide

/-- C9 amended: feeding the single byte 0x00 to a freshly
constructed context delivers exactly one event, VAL_NUM_UINT with
value 0, and `lecp_parse` returns 0 with the stack empty and the
sub-state OPC; no COMPLETE event is delivered (lecp.c never issues
one). -/
theorem c9_amended :
    (lecp_parse cbNone ctx0 [0x00]).2.1.map Prod.snd = [LECPCB_VAL_NUM_UINT] ∧
    (lecp_parse cbNone ctx0 [0x00]).2.1.map (fun e => e.1.item) = [0] ∧
    (lecp_parse cbNone ctx0 [0x00]).2.2 = 0 ∧
    (lecp_parse cbNone ctx0 [0x00]).1.stRest = [] ∧
    (lecp_parse cbNone ctx0 [0x00]).1.st.s = LECP_OPC ∧
    LECPCB_COMPLETE ∉ (lecp_parse cbNone ctx0 [0x00]).2.1.map Prod.snd := by
  decide

/-- C10: `lecp_construct`, `lecp_destruct` and `lecp_change_callback`
run to completion with results independent of the callback (the
CONSTRUCTED / DESTRUCTED return values are discarded by the source),
delivering their lifecycle events unconditionally; by contrast a
non-zero callback return during `lecp_parse` does cancel the feed
with LECP_REJECT_CALLBACK. -/
theorem c10_theorem (cb cb2 : Lecb) (paths : List (List Nat)) (ctx : Ctx) :
    lecp_construct cb paths = lecp_construct cb2 paths ∧
    (lecp_construct cb paths).2.map Prod.snd = [LECPCB_CONSTRUCTED] ∧
    lecp_destruct cb ctx = lecp_destruct cb2 ctx ∧
    (lecp_destruct cb ctx).2.map Prod.snd = [LECPCB_DESTRUCTED] ∧
    lecp_change_callback cb cb2 ctx = lecp_change_callback cb2 cb ctx ∧
    (lecp_change_callback cb cb2 ctx).2.map Prod.snd =
      [LECPCB_DESTRUCTED, LECPCB_CONSTRUCTED] ∧
    (lecp_parse (fun _ _ => true) ctx0 [0x00]).2.2 = LECP_REJECT_CALLBACK :=
  ⟨rfl, rfl, rfl, rfl, rfl, rfl, by decide⟩


theorem check_active (c : Ctx) (h : c.path_match ≠ 0) :
    lecp_check_path_match c = c := by
  unfold lecp_check_path_match
  rw [if_pos h]

theorem check_keep (c : Ctx) :
    (lecp_check_path_match c).st = c.st ∧
    (lecp_check_path_match c).stRest = c.stRest ∧
    (lecp_check_path_match c).present = c.present := by
  unfold lecp_check_path_match
  split
  · exact ⟨rfl, rfl, rfl⟩
  · split <;> exact ⟨rfl, rfl, rfl⟩

theorem check_pm_ne (c : Ctx) (h : c.path_match ≠ 0) :
    (lecp_check_path_match c).path_match = c.path_match := by
  rw [check_active c h]

theorem check_Wf (c : Ctx) (h : c.Wf) : (lecp_check_path_match c).Wf := by
  obtain ⟨h1, h2, h3⟩ := check_keep c
  unfold Ctx.Wf at h ⊢
  rw [h1, h2, h3]
  exact h

theorem evsOk_nil : EvsOk [] := by
  intro e he
  cases he

theorem evsOk_append {a b : Trace} (ha : EvsOk a) (hb : EvsOk b) :
    EvsOk (a ++ b) := by
  intro e he
  rcases List.mem_append.mp he with h | h
  exacts [ha e h, hb e h]

theorem evsOk_single {c : Ctx} {n : Nat} (h : n ≠ LECPCB_FAILED) :
    EvsOk [(c, n)] := by
  intro e he
  rw [List.mem_singleton] at he
  subst he
  exact h

theorem lecp_pop_eq_nil (cb : Lecb) (ctx : Ctx) (h : ctx.stRest = []) :
    lecp_pop cb ctx = (ctx, [], 0) := by
  unfold lecp_pop
  rw [h]

theorem lecp_pop_eq_cons (cb : Lecb) (ctx : Ctx) (fr : Frame)
    (rest : List Frame) (h : ctx.stRest = fr :: rest) :
    lecp_pop cb ctx =
      (if fr.pop_iss ≠ 0 then
        (if cb (popCtx ctx fr rest) fr.pop_iss then
          (popCtx ctx fr rest, [(popCtx ctx fr rest, fr.pop_iss)],
            LECP_REJECT_CALLBACK)
         else (popCtx ctx fr rest, [(popCtx ctx fr rest, fr.pop_iss)], 0))
       else (popCtx ctx fr rest, [], 0)) := by
  unfold lecp_pop
  rw [h]
  exact rfl

theorem pop_good (cb : Lecb) (ctx : Ctx) (h : ctx.Wf) :
    EvsOk (lecp_pop cb ctx).2.1 ∧ (lecp_pop cb ctx).1.Wf ∧
    (ctx.path_match ≠ 0 → (lecp_pop cb ctx).1.path_match = ctx.path_match) ∧
    ((lecp_pop cb ctx).2.2 = 0 ∨ (lecp_pop cb ctx).2.2 = LECP_REJECT_CALLBACK) := by
  rcases hr : ctx.stRest with _ | ⟨fr, rest⟩
  · rw [lecp_pop_eq_nil cb ctx hr]
    exact ⟨evsOk_nil, h, fun _ => rfl, Or.inl rfl⟩
  · have hfr : fr.Wf := h.2.2 fr (by rw [hr]; exact List.mem_cons_self _ _)
    have hrest : ∀ f ∈ rest, f.Wf :=
      fun f hf => h.2.2 f (by rw [hr]; exact List.mem_cons_of_mem _ hf)
    have hWf4 : (popCtx ctx fr rest).Wf := check_Wf _ ⟨hfr, h.2.1, hrest⟩
    have hpm : ctx.path_match ≠ 0 →
        (popCtx ctx fr rest).path_match = ctx.path_match := by
      intro hne
      exact check_pm_ne _ hne
    rw [lecp_pop_eq_cons cb ctx fr rest hr]
    split
    · split
      · exact ⟨evsOk_single hfr.2, hWf4, hpm, Or.inr rfl⟩
      · exact ⟨evsOk_single hfr.2, hWf4, hpm, Or.inl rfl⟩
    · exact ⟨evsOk_nil, hWf4, hpm, Or.inl rfl⟩

theorem push_good (cb : Lecb) (ctx : Ctx) (a b s : Nat) (h : ctx.Wf)
    (ha : a ≠ LECPCB_FAILED) (hb : b ≠ LECPCB_FAILED) (hs : s < 5) :
    EvsOk (lecp_push cb ctx a b s).2.1 ∧ (lecp_push cb ctx a b s).1.Wf ∧
    (lecp_push cb ctx a b s).1.path_match = ctx.path_match ∧
    ((lecp_push cb ctx a b s).2.2 = 0 ∨
     (lecp_push cb ctx a b s).2.2 = LECP_REJECT_CALLBACK ∨
     (lecp_push cb ctx a b s).2.2 = LECP_STACK_OVERFLOW) := by
  unfold lecp_push
  split
  · exact ⟨evsOk_nil, h, rfl, Or.inr (Or.inr rfl)⟩
  · have hWfP : ({ ctx with
        st := { { ctx.st with pop_iss := b } with s := s, collect_rem := 0, intermediate := false, indet := false, ordinal := 0 },
        stRest := { ctx.st with pop_iss := b } :: ctx.stRest } : Ctx).Wf := by
      refine ⟨⟨hs, hb⟩, h.2.1, ?_⟩
      intro f hf
      rcases List.mem_cons.mp hf with hf | hf
      · subst hf
        exact ⟨h.1.1, hb⟩
      · exact h.2.2 f hf
    split
    · split
      · exact ⟨evsOk_single ha, h, rfl, Or.inr (Or.inl rfl)⟩
      · exact ⟨evsOk_single ha, hWfP, rfl, Or.inl rfl⟩
    · split
      · exact ⟨evsOk_nil, h, rfl, Or.inr (Or.inl rfl)⟩
      · exact ⟨evsOk_nil, hWfP, rfl, Or.inl rfl⟩


theorem setParentOPC_pm (ctx : Ctx) :
    (setParentOPC ctx).path_match = ctx.path_match := by
  unfold setParentOPC
  rcases ctx.stRest with _ | ⟨f, r⟩ <;> rfl

theorem setParentOPC_Wf (ctx : Ctx) (h : ctx.Wf) : (setParentOPC ctx).Wf := by
  unfold setParentOPC
  rcases hr : ctx.stRest with _ | ⟨f, r⟩
  · exact h
  · refine ⟨h.1, h.2.1, ?_⟩
    intro g hg
    rcases List.mem_cons.mp hg with hg | hg
    · subst hg
      have hf2 := (h.2.2 f (by rw [hr]; exact List.mem_cons_self _ _)).2
      exact ⟨(by decide : LECP_OPC < 5), hf2⟩
    · exact h.2.2 g (by rw [hr]; exact List.mem_cons_of_mem _ hg)

theorem walk_good (cb : Lecb) (fuel : Nat) :
    ∀ (ctx : Ctx) (indet : Bool) (il : Nat), ctx.Wf →
      WalkGood ctx.path_match (lwcp_walk cb fuel ctx indet il) := by
  induction fuel with
  | zero =>
    intro ctx indet il h
    exact ⟨evsOk_nil, h, fun _ => rfl, Or.inl rfl⟩
  | succ fuel ih =>
    intro ctx indet il h
    rcases hr : ctx.stRest with _ | ⟨parentF, rest⟩
    · simp only [lwcp_walk, hr]
      exact ⟨evsOk_nil, h, fun _ => rfl, Or.inl rfl⟩
    · have hpF : parentF.Wf :=
        h.2.2 parentF (by rw [hr]; exact List.mem_cons_self _ _)
      have hrest : ∀ f ∈ rest, f.Wf :=
        fun f hf => h.2.2 f (by rw [hr]; exact List.mem_cons_of_mem _ hf)
      have hWf1 : ∀ (pf : Frame), pf.s = parentF.s → pf.pop_iss = parentF.pop_iss →
          ∀ (ii : List Nat), (({ ctx with stRest := pf :: rest, i := ii } : Ctx)).Wf := by
        intro pf hps hpi ii
        refine ⟨h.1, h.2.1, ?_⟩
        intro g hg
        rcases List.mem_cons.mp hg with hg | hg
        · subst hg
          exact ⟨hps ▸ hpF.1, hpi ▸ hpF.2⟩
        · exact hrest g hg
      have hPopRec : ∀ (cx : Ctx) (ilx : Nat), cx.Wf →
          cx.path_match = ctx.path_match →
          WalkGood ctx.path_match
            (if (lecp_pop cb (setParentOPC cx)).2.2 ≠ 0 then
              lecp_pop cb (setParentOPC cx)
             else
              ((lwcp_walk cb fuel (lecp_pop cb (setParentOPC cx)).1 false ilx).1,
               (lecp_pop cb (setParentOPC cx)).2.1 ++
                 (lwcp_walk cb fuel (lecp_pop cb (setParentOPC cx)).1 false ilx).2.1,
               (lwcp_walk cb fuel (lecp_pop cb (setParentOPC cx)).1 false ilx).2.2)) := by
        intro cx ilx hcx hcpm
        have hsp : (setParentOPC cx).Wf := setParentOPC_Wf cx hcx
        have hppm : (setParentOPC cx).path_match = ctx.path_match := by
          rw [setParentOPC_pm]
          exact hcpm
        obtain ⟨p1, p2, p3, p4⟩ := pop_good cb (setParentOPC cx) hsp
        have e1 : ctx.path_match ≠ 0 →
            (lecp_pop cb (setParentOPC cx)).1.path_match = ctx.path_match := by
          intro hne
          rw [p3 (by rw [hppm]; exact hne)]
          exact hppm
        split
        · exact ⟨p1, p2, e1, p4⟩
        · obtain ⟨q1, q2, q3, q4⟩ :=
            ih (lecp_pop cb (setParentOPC cx)).1 false ilx p2
          refine ⟨evsOk_append p1 q1, q2, ?_, q4⟩
          intro hne
          rw [q3 (by rw [e1 hne]; exact hne), e1 hne]
      simp only [lwcp_walk, hr]
      split
      · exact ⟨evsOk_nil,
          hWf1 { parentF with ordinal := parentF.ordinal + 1 } rfl rfl _,
          fun _ => rfl, Or.inl rfl⟩
      · split
        · split
          · exact ⟨evsOk_nil,
              hWf1 { parentF with ordinal := parentF.ordinal + 1, collect_rem := parentF.collect_rem - 1 } rfl rfl _,
              fun _ => rfl, Or.inl rfl⟩
          · exact hPopRec _ _
              (hWf1 { parentF with ordinal := parentF.ordinal + 1, collect_rem := parentF.collect_rem - 1 } rfl rfl _) rfl
        · exact hPopRec _ _
            (hWf1 { parentF with ordinal := parentF.ordinal + 1 } rfl rfl _) rfl

theorem completed_good (cb : Lecb) (ctx : Ctx) (indet : Bool) (h : ctx.Wf) :
    WalkGood ctx.path_match (lwcp_completed cb ctx indet) := by
  unfold lwcp_completed
  have hWf0 : (({ ctx with st := { ctx.st with s := LECP_OPC } } : Ctx)).Wf :=
    ⟨⟨(by decide : LECP_OPC < 5), h.1.2⟩, h.2.1, h.2.2⟩
  exact walk_good cb _ _ indet _ hWf0


theorem pm_trans {r cpm pm : Nat} (w : cpm ≠ 0 → r = cpm)
    (hp : pm ≠ 0 → cpm = pm) : pm ≠ 0 → r = pm := by
  intro hne
  have e := hp hne
  have hc : cpm ≠ 0 := by rw [e]; exact hne
  rw [w hc, e]

theorem i2_good (ctx : Ctx) (sm : Nat) (evs : Trace) (pm : Nat) (h : ctx.Wf)
    (he : EvsOk evs) (hpm : pm ≠ 0 → ctx.path_match = pm) :
    (stepI2 ctx sm evs).Good pm := by
  unfold stepI2
  split
  · exact ⟨he, hpm⟩
  · exact ⟨he, ⟨⟨(by decide : LECP_COLLECT < 5), h.1.2⟩, h.2.1, h.2.2⟩, hpm⟩

theorem tagEnclosure_good (cb : Lecb) (ctx : Ctx) (evs : Trace) (pm : Nat)
    (h : ctx.Wf) (he : EvsOk evs) (hpm : pm ≠ 0 → ctx.path_match = pm) :
    (stepTagEnclosure cb ctx evs).Good pm := by
  simp only [stepTagEnclosure]
  have h1 : ({ ctx with st := { ctx.st with p := ctx.path.length } } : Ctx).Wf :=
    ⟨⟨h.1.1, h.1.2⟩, h.2.1, h.2.2⟩
  obtain ⟨g1, g2, g3, g4⟩ := push_good cb _ LECPCB_TAG_START LECPCB_TAG_END
    LECP_OPC h1 (by decide) (by decide) (by decide)
  split
  · rename_i hne0
    refine ⟨evsOk_append he g1, fun hne => g3.trans (hpm hne), ?_⟩
    rcases g4 with g4 | g4 | g4
    · exact absurd g4 hne0
    · exact Or.inl g4
    · exact Or.inr g4
  · exact ⟨evsOk_append he g1, g2, fun hne => g3.trans (hpm hne)⟩

theorem issue_good (cb : Lecb) (ctx : Ctx) (evs : Trace) (pm : Nat)
    (h : ctx.Wf) (he : EvsOk evs) (hpm : pm ≠ 0 → ctx.path_match = pm) :
    (stepIssue cb ctx evs).Good pm := by
  simp only [stepIssue]
  split
  · exact tagEnclosure_good cb _ evs pm ⟨⟨h.1.1, h.1.2⟩, h.2.1, h.2.2⟩ he hpm
  · split
    · exact ⟨evsOk_append he (evsOk_single h.2.1), hpm⟩
    · obtain ⟨w1, w2, w3, w4⟩ := completed_good cb ctx false h
      exact ⟨evsOk_append (evsOk_append he (evsOk_single h.2.1)) w1, w2,
        pm_trans w3 hpm⟩

theorem string_good (cb : Lecb) (ctx0 : Ctx) (toOff sm : Nat) (pm : Nat)
    (h : ctx0.Wf) (hpm : pm ≠ 0 → ctx0.path_match = pm)
    (hto : toOff = 0 ∨ toOff = LECPCB_VAL_BLOB_END - LECPCB_VAL_STR_END) :
    (stepString cb ctx0 toOff sm).Good pm := by
  have hS : LECPCB_VAL_STR_START + toOff ≠ LECPCB_FAILED := by
    rcases hto with h1 | h1 <;> subst h1 <;> decide
  have hE : LECPCB_VAL_STR_END + toOff ≠ LECPCB_FAILED := by
    rcases hto with h1 | h1 <;> subst h1 <;> decide
  have hctx : ({ ctx0 with buf := [] } : Ctx).Wf := ⟨h.1, h.2.1, h.2.2⟩
  simp only [stepString]
  have hevs0 : EvsOk (if strStartQ { ctx0 with buf := [] } then
      [(({ ctx0 with buf := [] } : Ctx), LECPCB_VAL_STR_START + toOff)]
      else []) := by
    split
    · exact evsOk_single hS
    · exact evsOk_nil
  split
  · exact ⟨hevs0, hpm⟩
  · split
    · split
      · exact ⟨evsOk_append hevs0 (evsOk_single hE), hpm⟩
      · obtain ⟨w1, w2, w3, w4⟩ := completed_good cb _ false hctx
        exact ⟨evsOk_append (evsOk_append hevs0 (evsOk_single hE)) w1, w2,
          pm_trans w3 hpm⟩
    · split
      · exact ⟨hevs0, ⟨⟨(by decide : LECP_COLLATE < 5), h.1.2⟩, h.2.1, h.2.2⟩,
          hpm⟩
      · split
        · exact i2_good _ sm _ pm hctx hevs0 hpm
        · split
          · exact ⟨hevs0, hpm⟩
          · obtain ⟨g1, g2, g3, g4⟩ := push_good cb
              ({ ctx0 with buf := [], st := { ctx0.st with indet := true, p := ctx0.path.length } } : Ctx)
              0 (LECPCB_VAL_STR_END + toOff) LECP_ONLY_SAME
              ⟨⟨h.1.1, h.1.2⟩, h.2.1, h.2.2⟩ (by decide) hE (by decide)
            exact ⟨evsOk_append hevs0 g1, g2, fun hne => g3.trans (hpm hne)⟩


theorem arrayAt_good (cb : Lecb) (ctxC : Ctx) (sm : Nat) (pm : Nat)
    (h : ctxC.Wf) (hpm : pm ≠ 0 → ctxC.path_match = pm) :
    (stepArrayAt cb ctxC sm).Good pm := by
  simp only [stepArrayAt]
  split
  · exact ⟨evsOk_nil, hpm⟩
  · split
    · exact ⟨evsOk_single (by decide), hpm⟩
    · split
      · split
        · exact ⟨evsOk_append (evsOk_single (by decide))
            (evsOk_single (by decide)), hpm⟩
        · obtain ⟨w1, w2, w3, w4⟩ := completed_good cb
            (lecp_check_path_match { ctxC with path := ctxC.path.take ctxC.st.p, i := (ctxC.i ++ [0]).dropLast })
            false (check_Wf _ ⟨h.1, h.2.1, h.2.2⟩)
          have hpmF : pm ≠ 0 → (lecp_check_path_match { ctxC with path := ctxC.path.take ctxC.st.p, i := (ctxC.i ++ [0]).dropLast }).path_match = pm :=
            pm_trans (fun hne => check_pm_ne _ hne) hpm
          exact ⟨evsOk_append (evsOk_append (evsOk_single (by decide))
            (evsOk_single (by decide))) w1, w2, pm_trans w3 hpmF⟩
      · split
        · obtain ⟨g1, g2, g3, g4⟩ := push_good cb
            ({ ctxC with i := ctxC.i ++ [0], st := { ctxC.st with indet := false, collect_rem := sm } } : Ctx)
            0 LECPCB_ARRAY_END LECP_OPC
            ⟨⟨h.1.1, h.1.2⟩, h.2.1, h.2.2⟩ (by decide) (by decide) (by decide)
          exact ⟨evsOk_append (evsOk_single (by decide)) g1, g2,
            fun hne => g3.trans (hpm hne)⟩
        · split
          · exact i2_good _ sm _ pm ⟨h.1, h.2.1, h.2.2⟩
              (evsOk_single (by decide)) hpm
          · split
            · exact ⟨evsOk_single (by decide), hpm⟩
            · obtain ⟨g1, g2, g3, g4⟩ := push_good cb
                ({ ctxC with i := ctxC.i ++ [0], st := { ctxC.st with indet := true } } : Ctx)
                0 LECPCB_ARRAY_END LECP_OPC
                ⟨⟨h.1.1, h.1.2⟩, h.2.1, h.2.2⟩ (by decide) (by decide)
                (by decide)
              exact ⟨evsOk_append (evsOk_single (by decide)) g1, g2,
                fun hne => g3.trans (hpm hne)⟩

theorem array_good (cb : Lecb) (ctx0 : Ctx) (sm : Nat) (pm : Nat)
    (h : ctx0.Wf) (hpm : pm ≠ 0 → ctx0.path_match = pm) :
    (stepArray cb ctx0 sm).Good pm := by
  simp only [stepArray]
  split
  · exact ⟨evsOk_nil, hpm⟩
  · exact arrayAt_good cb _ sm pm
      (check_Wf _ ⟨⟨h.1.1, h.1.2⟩, h.2.1, h.2.2⟩)
      (pm_trans (fun hne => check_pm_ne _ hne) hpm)

theorem mapAt_good (cb : Lecb) (ctxC : Ctx) (sm : Nat) (pm : Nat)
    (h : ctxC.Wf) (hpm : pm ≠ 0 → ctxC.path_match = pm) :
    (stepMapAt cb ctxC sm).Good pm := by
  simp only [stepMapAt]
  split
  · exact ⟨evsOk_single (by decide), hpm⟩
  · split
    · split
      · exact ⟨evsOk_append (evsOk_single (by decide))
          (evsOk_single (by decide)), hpm⟩
      · obtain ⟨w1, w2, w3, w4⟩ := completed_good cb
          (lecp_check_path_match { ctxC with path := ctxC.path.take ctxC.st.p })
          false (check_Wf _ ⟨h.1, h.2.1, h.2.2⟩)
        have hpmF : pm ≠ 0 → (lecp_check_path_match { ctxC with path := ctxC.path.take ctxC.st.p }).path_match = pm :=
          pm_trans (fun hne => check_pm_ne _ hne) hpm
        exact ⟨evsOk_append (evsOk_append (evsOk_single (by decide))
          (evsOk_single (by decide))) w1, w2, pm_trans w3 hpmF⟩
    · split
      · obtain ⟨g1, g2, g3, g4⟩ := push_good cb
          ({ ctxC with st := { ctxC.st with indet := false, collect_rem := sm * 2 } } : Ctx)
          0 LECPCB_OBJECT_END LECP_OPC
          ⟨⟨h.1.1, h.1.2⟩, h.2.1, h.2.2⟩ (by decide) (by decide) (by decide)
        exact ⟨evsOk_append (evsOk_single (by decide)) g1, g2,
          fun hne => g3.trans (hpm hne)⟩
      · split
        · exact i2_good _ sm _ pm h (evsOk_single (by decide)) hpm
        · split
          · exact ⟨evsOk_single (by decide), hpm⟩
          · obtain ⟨g1, g2, g3, g4⟩ := push_good cb
              ({ ctxC with st := { ctxC.st with indet := true } } : Ctx)
              0 LECPCB_OBJECT_END LECP_OPC
              ⟨⟨h.1.1, h.1.2⟩, h.2.1, h.2.2⟩ (by decide) (by decide) (by decide)
            exact ⟨evsOk_append (evsOk_single (by decide)) g1, g2,
              fun hne => g3.trans (hpm hne)⟩

theorem map_good (cb : Lecb) (ctx0 : Ctx) (sm : Nat) (pm : Nat)
    (h : ctx0.Wf) (hpm : pm ≠ 0 → ctx0.path_match = pm) :
    (stepMap cb ctx0 sm).Good pm := by
  simp only [stepMap]
  split
  · exact ⟨evsOk_nil, hpm⟩
  · exact mapAt_good cb _ sm pm
      (check_Wf _ ⟨⟨h.1.1, h.1.2⟩, h.2.1, h.2.2⟩)
      (pm_trans (fun hne => check_pm_ne _ hne) hpm)

theorem tag_good (cb : Lecb) (ctx : Ctx) (sm : Nat) (pm : Nat)
    (h : ctx.Wf) (hpm : pm ≠ 0 → ctx.path_match = pm) :
    (stepTag cb ctx sm).Good pm := by
  unfold stepTag
  split
  · exact tagEnclosure_good cb _ [] pm ⟨⟨h.1.1, h.1.2⟩, h.2.1, h.2.2⟩
      evsOk_nil hpm
  · exact i2_good _ sm _ pm h evsOk_nil hpm

theorem float_good (cb : Lecb) (ctx : Ctx) (sm : Nat) (pm : Nat)
    (h : ctx.Wf) (hpm : pm ≠ 0 → ctx.path_match = pm) :
    (stepFloat cb ctx sm).Good pm := by
  unfold stepFloat
  by_cases h20 : sm = LWS_CBOR_SWK_FALSE
  · rw [if_pos h20]
    exact issue_good cb _ [] pm
      ⟨h.1, (by decide : LECPCB_VAL_FALSE ≠ LECPCB_FAILED), h.2.2⟩ evsOk_nil hpm
  · rw [if_neg h20]
    by_cases h21 : sm = LWS_CBOR_SWK_TRUE
    · rw [if_pos h21]
      exact issue_good cb _ [] pm
        ⟨h.1, (by decide : LECPCB_VAL_TRUE ≠ LECPCB_FAILED), h.2.2⟩ evsOk_nil hpm
    · rw [if_neg h21]
      by_cases h22 : sm = LWS_CBOR_SWK_NULL
      · rw [if_pos h22]
        exact issue_good cb _ [] pm
          ⟨h.1, (by decide : LECPCB_VAL_NULL ≠ LECPCB_FAILED), h.2.2⟩ evsOk_nil hpm
      · rw [if_neg h22]
        by_cases h23 : sm = LWS_CBOR_SWK_UNDEFINED
        · rw [if_pos h23]
          exact issue_good cb _ [] pm
            ⟨h.1, (by decide : LECPCB_VAL_UNDEFINED ≠ LECPCB_FAILED), h.2.2⟩
            evsOk_nil hpm
        · rw [if_neg h23]
          by_cases h24 : sm = LWS_CBOR_M7_SUBTYP_SIMPLE_X8
          · rw [if_pos h24]
            exact ⟨evsOk_nil, ⟨⟨(by decide : LECP_SIMPLEX8 < 5), h.1.2⟩,
              h.2.1, h.2.2⟩, hpm⟩
          · rw [if_neg h24]
            by_cases h25 : sm = LWS_CBOR_M7_SUBTYP_FLOAT16
            · rw [if_pos h25]
              exact ⟨evsOk_nil, ⟨⟨(by decide : LECP_COLLECT < 5), h.1.2⟩,
                (by decide : LECPCB_VAL_FLOAT16 ≠ LECPCB_FAILED), h.2.2⟩, hpm⟩
            · rw [if_neg h25]
              by_cases h26 : sm = LWS_CBOR_M7_SUBTYP_FLOAT32
              · rw [if_pos h26]
                exact ⟨evsOk_nil, ⟨⟨(by decide : LECP_COLLECT < 5), h.1.2⟩,
                  (by decide : LECPCB_VAL_FLOAT32 ≠ LECPCB_FAILED), h.2.2⟩, hpm⟩
              · rw [if_neg h26]
                by_cases h27 : sm = LWS_CBOR_M7_SUBTYP_FLOAT64
                · rw [if_pos h27]
                  exact ⟨evsOk_nil, ⟨⟨(by decide : LECP_COLLECT < 5), h.1.2⟩,
                    (by decide : LECPCB_VAL_FLOAT64 ≠ LECPCB_FAILED), h.2.2⟩, hpm⟩
                · rw [if_neg h27]
                  by_cases h31 : sm = LWS_CBOR_M7_BREAK
                  · rw [if_pos h31]
                    rcases hsr : ctx.stRest with _ | ⟨f, rest⟩
                    · exact ⟨evsOk_nil, hpm⟩
                    · show StepCore.Good pm (if !f.indet then StepCore.badCoding ctx [] else StepCore.ok (lwcp_completed cb ctx true).1 (lwcp_completed cb ctx true).2.1)
                      cases hf : f.indet
                      · exact ⟨evsOk_nil, hpm⟩
                      · obtain ⟨w1, w2, w3, w4⟩ := completed_good cb ctx true h
                        exact ⟨w1, w2, pm_trans w3 hpm⟩
                  · rw [if_neg h31]
                    show StepCore.Good pm (if cb { ctx with item := sm } LECPCB_VAL_SIMPLE then StepCore.rejectedCb { ctx with item := sm } [({ ctx with item := sm }, LECPCB_VAL_SIMPLE)] else StepCore.ok { ctx with item := sm } [({ ctx with item := sm }, LECPCB_VAL_SIMPLE)])
                    split
                    · exact ⟨evsOk_single (by decide), hpm⟩
                    · exact ⟨evsOk_single (by decide), ⟨h.1, h.2.1, h.2.2⟩, hpm⟩


theorem collect_good (cb : Lecb) (ctx0 : Ctx) (c : Nat) (pm : Nat)
    (h : ctx0.Wf) (hpm : pm ≠ 0 → ctx0.path_match = pm) :
    (stepCOLLECT cb ctx0 c).Good pm := by
  simp only [stepCOLLECT]
  split
  · exact ⟨evsOk_nil, ⟨⟨h.1.1, h.1.2⟩, h.2.1, h.2.2⟩, hpm⟩
  · split
    · exact ⟨evsOk_nil, ⟨⟨(by decide : LECP_COLLATE < 5), h.1.2⟩, h.2.1,
        h.2.2⟩, hpm⟩
    · split
      · obtain ⟨g1, g2, g3, g4⟩ := push_good cb
          ({ ctx0 with st := { ctx0.st with collect_rem := ctx0.item + c * 256 ^ (ctx0.st.collect_rem - 1) }, item := ctx0.item + c * 256 ^ (ctx0.st.collect_rem - 1), buf := [] } : Ctx)
          0 LECPCB_ARRAY_END LECP_OPC
          ⟨⟨h.1.1, h.1.2⟩, h.2.1, h.2.2⟩ (by decide) (by decide) (by decide)
        exact ⟨g1, g2, fun hne => g3.trans (hpm hne)⟩
      · split
        · obtain ⟨g1, g2, g3, g4⟩ := push_good cb
            ({ ctx0 with st := { ctx0.st with collect_rem := (ctx0.item + c * 256 ^ (ctx0.st.collect_rem - 1)) * 2 % 2 ^ 64 }, item := ctx0.item + c * 256 ^ (ctx0.st.collect_rem - 1), buf := [] } : Ctx)
            0 LECPCB_OBJECT_END LECP_OPC
            ⟨⟨h.1.1, h.1.2⟩, h.2.1, h.2.2⟩ (by decide) (by decide) (by decide)
          exact ⟨g1, g2, fun hne => g3.trans (hpm hne)⟩
        · split
          · exact tagEnclosure_good cb _ [] pm
              ⟨⟨h.1.1, h.1.2⟩, h.2.1, h.2.2⟩ evsOk_nil hpm
          · exact issue_good cb _ [] pm ⟨⟨h.1.1, h.1.2⟩, h.2.1, h.2.2⟩
              evsOk_nil hpm

theorem simplex8_good (cb : Lecb) (ctx : Ctx) (c : Nat) (pm : Nat)
    (h : ctx.Wf) (hpm : pm ≠ 0 → ctx.path_match = pm) :
    (stepSIMPLEX8 cb ctx c).Good pm := by
  simp only [stepSIMPLEX8]
  split
  · exact ⟨evsOk_nil, hpm⟩
  · split
    · exact ⟨evsOk_single (by decide), hpm⟩
    · obtain ⟨w1, w2, w3, w4⟩ := completed_good cb
        ({ ctx with item := c } : Ctx) false ⟨h.1, h.2.1, h.2.2⟩
      exact ⟨evsOk_append (evsOk_single (by decide)) w1, w2, pm_trans w3 hpm⟩

theorem spillEmitAux_good (cb : Lecb) (ctx1 : Ctx) (o : Nat) (more : Bool)
    (pm : Nat)
    (hWf : Ctx.Wf ({ ctx1 with buf := [], st := { ctx1.st with s := LECP_OPC } } : Ctx))
    (ho : o ≠ LECPCB_FAILED) (hpm : pm ≠ 0 → ctx1.path_match = pm) :
    StepCore.Good pm
      (if cb ctx1 o = true then StepCore.rejectedCb ctx1 [(ctx1, o)]
       else if more = true then
         StepCore.ok ({ ctx1 with buf := [], st := { ctx1.st with s := LECP_OPC } } : Ctx) [(ctx1, o)]
       else
         StepCore.ok (lwcp_completed cb ({ ctx1 with buf := [], st := { ctx1.st with s := LECP_OPC } } : Ctx) false).1
           ([(ctx1, o)] ++ (lwcp_completed cb ({ ctx1 with buf := [], st := { ctx1.st with s := LECP_OPC } } : Ctx) false).2.1)) := by
  split
  · exact ⟨evsOk_single ho, hpm⟩
  · split
    · exact ⟨evsOk_single ho, hWf, hpm⟩
    · obtain ⟨w1, w2, w3, w4⟩ := completed_good cb
        ({ ctx1 with buf := [], st := { ctx1.st with s := LECP_OPC } } : Ctx)
        false hWf
      exact ⟨evsOk_append (evsOk_single ho) w1, w2, pm_trans w3 hpm⟩

theorem spillEmit_good (cb : Lecb) (ctx0 : Ctx) (pm : Nat)
    (h : ctx0.Wf) (hpm : pm ≠ 0 → ctx0.path_match = pm) :
    (stepSpillEmit cb ctx0).Good pm := by
  obtain ⟨cst, csr, cpaths, cpath, ci, cbuf, citem, ciop, cpres, cpmv, cpml, cwild⟩ := ctx0
  rcases csr with _ | ⟨f, rest⟩
  · exact spillEmitAux_good cb _ _ _ pm
      ⟨⟨(by decide : LECP_OPC < 5), h.1.2⟩, h.2.1, h.2.2⟩
      (by split <;> split <;> decide) hpm
  · have hf : f.Wf := h.2.2 f (List.mem_cons_self _ _)
    have hrest : ∀ g ∈ rest, g.Wf :=
      fun g hg => h.2.2 g (List.mem_cons_of_mem _ hg)
    refine spillEmitAux_good cb _ _ _ pm
      ⟨⟨(by decide : LECP_OPC < 5), h.1.2⟩, h.2.1, ?_⟩
      (by split <;> split <;> decide) hpm
    intro g hg
    rcases List.mem_cons.mp hg with hg | hg
    · subst hg
      exact ⟨hf.1, hf.2⟩
    · exact hrest g hg

theorem spill_good (cb : Lecb) (ctx0 : Ctx) (pm : Nat)
    (h : ctx0.Wf) (hpm : pm ≠ 0 → ctx0.path_match = pm) :
    (stepSpill cb ctx0).Good pm := by
  simp only [stepSpill]
  split
  · split <;> split
    · exact ⟨evsOk_nil, hpm⟩
    · exact spillEmit_good cb _ pm
        (check_Wf _ ⟨⟨h.1.1, h.1.2⟩, h.2.1, h.2.2⟩)
        (pm_trans (fun hne => check_pm_ne _ hne) hpm)
    · exact ⟨evsOk_nil, hpm⟩
    · exact spillEmit_good cb _ pm
        (check_Wf _ ⟨⟨h.1.1, h.1.2⟩, h.2.1, h.2.2⟩)
        (pm_trans (fun hne => check_pm_ne _ hne) hpm)
  · exact spillEmit_good cb ctx0 pm h hpm

theorem collate_good (cb : Lecb) (ctx0 : Ctx) (c : Nat) (pm : Nat)
    (h : ctx0.Wf) (hpm : pm ≠ 0 → ctx0.path_match = pm) :
    (stepCOLLATE cb ctx0 c).Good pm := by
  simp only [stepCOLLATE]
  split <;> split
  · exact ⟨evsOk_nil, ⟨⟨h.1.1, h.1.2⟩, h.2.1, h.2.2⟩, hpm⟩
  · exact spill_good cb _ pm ⟨⟨h.1.1, h.1.2⟩, h.2.1, h.2.2⟩ hpm
  · exact ⟨evsOk_nil, ⟨⟨h.1.1, h.1.2⟩, h.2.1, h.2.2⟩, hpm⟩
  · exact spill_good cb _ pm ⟨⟨h.1.1, h.1.2⟩, h.2.1, h.2.2⟩ hpm

theorem onlysame_good (cb : Lecb) (ctx : Ctx) (c : Nat) (pm : Nat)
    (h : ctx.Wf) (hpm : pm ≠ 0 → ctx.path_match = pm) :
    (stepONLYSAME cb ctx c).Good pm := by
  obtain ⟨cst, csr, cpaths, cpath, ci, cbuf, citem, ciop, cpres, cpmv, cpml, cwild⟩ := ctx
  rcases csr with _ | ⟨f, rest⟩
  · exact ⟨evsOk_nil, hpm, Or.inr rfl⟩
  · simp only [stepONLYSAME]
    split
    · split
      · exact ⟨evsOk_nil, hpm⟩
      · obtain ⟨w1, w2, w3, w4⟩ := completed_good cb
          (⟨cst, f :: rest, cpaths, cpath, ci, cbuf, citem, ciop, cpres, cpmv, cpml, cwild⟩ : Ctx) true h
        split
        · exact ⟨w1, pm_trans w3 hpm⟩
        · exact ⟨w1, w2, pm_trans w3 hpm⟩
    · split
      · exact ⟨evsOk_nil, hpm⟩
      · split
        · exact ⟨evsOk_nil, hpm⟩
        · split
          · exact ⟨evsOk_nil, ⟨⟨(by decide : LECP_COLLATE < 5), h.1.2⟩,
              h.2.1, h.2.2⟩, hpm⟩
          · split
            · exact ⟨evsOk_nil, hpm⟩
            · exact i2_good _ _ [] pm h evsOk_nil hpm

theorem opc_good (cb : Lecb) (ctx0 : Ctx) (c : Nat) (pm : Nat)
    (h : ctx0.Wf) (hpm : pm ≠ 0 → ctx0.path_match = pm) :
    (stepOPC cb ctx0 c).Good pm := by
  simp only [stepOPC]
  have hW : ({ ctx0 with st := { ctx0.st with opcode := 32 * (c / 32) }, itemOpcode := 32 * (c / 32) } : Ctx).Wf :=
    ⟨⟨h.1.1, h.1.2⟩, h.2.1, h.2.2⟩
  split
  · split
    · exact issue_good cb _ [] pm
        ⟨⟨h.1.1, h.1.2⟩, (by decide : LECPCB_VAL_NUM_UINT ≠ LECPCB_FAILED),
          h.2.2⟩ evsOk_nil hpm
    · exact i2_good _ _ [] pm
        ⟨⟨h.1.1, h.1.2⟩, (by decide : LECPCB_VAL_NUM_UINT ≠ LECPCB_FAILED),
          h.2.2⟩ evsOk_nil hpm
  · split
    · split
      · exact issue_good cb _ [] pm
          ⟨⟨h.1.1, h.1.2⟩, (by decide : LECPCB_VAL_NUM_INT ≠ LECPCB_FAILED),
            h.2.2⟩ evsOk_nil hpm
      · exact i2_good _ _ [] pm
          ⟨⟨h.1.1, h.1.2⟩, (by decide : LECPCB_VAL_NUM_INT ≠ LECPCB_FAILED),
            h.2.2⟩ evsOk_nil hpm
    · split
      · exact string_good cb _ _ _ pm hW hpm (Or.inr rfl)
      · split
        · exact string_good cb _ _ _ pm hW hpm (Or.inl rfl)
        · split
          · exact array_good cb _ _ pm hW hpm
          · split
            · exact map_good cb _ _ pm hW hpm
            · split
              · exact tag_good cb _ _ pm hW hpm
              · exact float_good cb _ _ pm hW hpm

theorem stepCore_good (cb : Lecb) (ctx : Ctx) (c : Nat) (h : ctx.Wf) :
    (lecpStepCore cb ctx c).Good ctx.path_match := by
  simp only [lecpStepCore]
  split
  · exact opc_good cb ctx _ ctx.path_match h (fun _ => rfl)
  · split
    · exact collect_good cb ctx _ ctx.path_match h (fun _ => rfl)
    · split
      · exact simplex8_good cb ctx _ ctx.path_match h (fun _ => rfl)
      · split
        · exact collate_good cb ctx _ ctx.path_match h (fun _ => rfl)
        · split
          · exact onlysame_good cb ctx _ ctx.path_match h (fun _ => rfl)
          · rename_i h1 h2 h3 h4 h5
            exfalso
            have h6 := h.1.1
            simp only [LECP_OPC, LECP_COLLECT, LECP_SIMPLEX8, LECP_COLLATE,
              LECP_ONLY_SAME] at h1 h2 h3 h4 h5
            omega


theorem parse_cons_err (cb : Lecb) (ctx : Ctx) (c : Nat) (rest : List Nat)
    (e : Int) (h : (lecpStep cb ctx c).err = some e) :
    lecp_parse cb ctx (c :: rest) =
      ((lecpStep cb ctx c).ctx, (lecpStep cb ctx c).evs, e) := by
  unfold lecp_parse
  simp only [h]

theorem parse_cons_ok (cb : Lecb) (ctx : Ctx) (c : Nat) (rest : List Nat)
    (h : (lecpStep cb ctx c).err = none) :
    lecp_parse cb ctx (c :: rest) =
      ((lecp_parse cb (lecpStep cb ctx c).ctx rest).1,
       (lecpStep cb ctx c).evs ++ (lecp_parse cb (lecpStep cb ctx c).ctx rest).2.1,
       (lecp_parse cb (lecpStep cb ctx c).ctx rest).2.2) := by
  conv_lhs => rw [lecp_parse]
  simp only [h]

theorem lecpStep_good (cb : Lecb) (ctx : Ctx) (c : Nat) (h : ctx.Wf) :
    StepOutGood ctx.path_match (lecpStep cb ctx c) := by
  have hg := stepCore_good cb ctx c h
  unfold lecpStep
  cases hs : lecpStepCore cb ctx c with
  | ok c1 evs1 =>
    rw [hs] at hg
    exact ⟨hg.2.2, Or.inl ⟨rfl, hg.1, hg.2.1⟩⟩
  | badCoding c1 evs1 =>
    rw [hs] at hg
    exact ⟨hg.2, Or.inr (Or.inl ⟨evs1, rfl, hg.1, Or.inl rfl⟩)⟩
  | overflowed c1 evs1 =>
    rw [hs] at hg
    exact ⟨hg.2, Or.inr (Or.inl ⟨evs1, rfl, hg.1, Or.inr (Or.inr rfl)⟩)⟩
  | rejectedCb c1 evs1 =>
    rw [hs] at hg
    exact ⟨hg.2, Or.inr (Or.inl ⟨evs1, rfl, hg.1, Or.inr (Or.inl rfl)⟩)⟩
  | hardReturn c1 evs1 code =>
    rw [hs] at hg
    rcases hg.2.2 with hc | hc
    · exact ⟨hg.2.1, Or.inr (Or.inr ⟨hg.1, Or.inl (by rw [hc]; rfl)⟩)⟩
    · exact ⟨hg.2.1, Or.inr (Or.inr ⟨hg.1, Or.inr (by rw [hc]; rfl)⟩)⟩

theorem parse_good (cb : Lecb) (bytes : List Nat) : ∀ (ctx : Ctx), ctx.Wf →
    ParseGood ctx.path_match (lecp_parse cb ctx bytes) := by
  induction bytes with
  | nil =>
    intro ctx h
    refine ⟨fun _ => rfl, Or.inl ⟨evsOk_nil, h, ?_⟩⟩
    show lecp_retcode ctx = 0 ∨ lecp_retcode ctx = LECP_CONTINUE
    unfold lecp_retcode
    split
    · exact Or.inl rfl
    · exact Or.inr rfl
  | cons c rest ih =>
    intro ctx h
    obtain ⟨hpm, hcase⟩ := lecpStep_good cb ctx c h
    rcases hcase with ⟨he, hevs, hwf⟩ | ⟨evs0, hevs, hok, hcode⟩ | ⟨hevs, hcode⟩
    · rw [parse_cons_ok cb ctx c rest he]
      obtain ⟨ihpm, ihcase⟩ := ih (lecpStep cb ctx c).ctx hwf
      refine ⟨pm_trans ihpm hpm, ?_⟩
      rcases ihcase with ⟨i1, i2, i3⟩ | ⟨evs1, i1, i2, i3⟩ | ⟨i1, i2⟩
      · exact Or.inl ⟨evsOk_append hevs i1, i2, i3⟩
      · refine Or.inr (Or.inl ⟨(lecpStep cb ctx c).evs ++ evs1, ?_,
          evsOk_append hevs i2, i3⟩)
        rw [i1, List.append_assoc]
      · exact Or.inr (Or.inr ⟨evsOk_append hevs i1, i2⟩)
    · rcases hcode with hc | hc | hc
      · rw [parse_cons_err cb ctx c rest _ hc]
        exact ⟨hpm, Or.inr (Or.inl ⟨evs0, hevs, hok, Or.inl rfl⟩)⟩
      · rw [parse_cons_err cb ctx c rest _ hc]
        exact ⟨hpm, Or.inr (Or.inl ⟨evs0, hevs, hok, Or.inr (Or.inl rfl)⟩)⟩
      · rw [parse_cons_err cb ctx c rest _ hc]
        exact ⟨hpm, Or.inr (Or.inl ⟨evs0, hevs, hok, Or.inr (Or.inr rfl)⟩)⟩
    · rcases hcode with hc | hc
      · rw [parse_cons_err cb ctx c rest _ hc]
        exact ⟨hpm, Or.inr (Or.inr ⟨hevs, Or.inl rfl⟩)⟩
      · rw [parse_cons_err cb ctx c rest _ hc]
        exact ⟨hpm, Or.inr (Or.inr ⟨hevs, Or.inr rfl⟩)⟩

/-- C1 (amended): for a sane starting context, a BadCoding return is
always preceded by exactly one FAILED notification, delivered last;
a RejectedByCallback or Overflow return is preceded either by exactly
one FAILED, delivered last, or - on the direct-return paths through
`start_tag_enclosure` and the ONLY_SAME stack guard, which the
original claim overlooked - by no FAILED at all; and a return of 0 or
CONTINUE is never accompanied by a FAILED. -/
theorem c1_amended (cb : Lecb) (ctx : Ctx) (bytes : List Nat) (h : ctx.Wf) :
    ((lecp_parse cb ctx bytes).2.2 = LECP_REJECT_BAD_CODING →
      ∃ evs0, (lecp_parse cb ctx bytes).2.1 =
          evs0 ++ [((lecp_parse cb ctx bytes).1, LECPCB_FAILED)] ∧ EvsOk evs0) ∧
    ((lecp_parse cb ctx bytes).2.2 = LECP_REJECT_CALLBACK ∨
        (lecp_parse cb ctx bytes).2.2 = LECP_STACK_OVERFLOW →
      (∃ evs0, (lecp_parse cb ctx bytes).2.1 =
          evs0 ++ [((lecp_parse cb ctx bytes).1, LECPCB_FAILED)] ∧ EvsOk evs0) ∨
      EvsOk (lecp_parse cb ctx bytes).2.1) ∧
    ((lecp_parse cb ctx bytes).2.2 = 0 ∨
        (lecp_parse cb ctx bytes).2.2 = LECP_CONTINUE →
      EvsOk (lecp_parse cb ctx bytes).2.1) := by
  obtain ⟨hpm, hc⟩ := parse_good cb bytes ctx h
  rcases hc with ⟨e1, w1, r1⟩ | ⟨evs0, hevs, hok, hcode⟩ | ⟨hevs, hcode⟩
  · refine ⟨fun hr => ?_, fun hr => ?_, fun _ => e1⟩
    · rcases r1 with r1 | r1 <;> rw [r1] at hr <;> exact absurd hr (by decide)
    · rcases r1 with r1 | r1 <;> rcases hr with hr | hr <;> rw [r1] at hr <;>
        exact absurd hr (by decide)
  · refine ⟨fun _ => ⟨evs0, hevs, hok⟩, fun _ => Or.inl ⟨evs0, hevs, hok⟩,
      fun hr => ?_⟩
    rcases hcode with r1 | r1 | r1 <;> rcases hr with hr | hr <;>
      rw [r1] at hr <;> exact absurd hr (by decide)
  · refine ⟨fun hr => ?_, fun _ => Or.inr hevs, fun hr => ?_⟩
    · rcases hcode with r1 | r1 <;> rw [r1] at hr <;> exact absurd hr (by decide)
    · rcases hcode with r1 | r1 <;> rcases hr with hr | hr <;>
        rw [r1] at hr <;> exact absurd hr (by decide)

theorem c1_amended_witness :
    Ctx.Wf ctx0 ∧
    (((lecp_parse cbNone ctx0 [0x1c]).2.2 = LECP_REJECT_BAD_CODING →
      ∃ evs0, (lecp_parse cbNone ctx0 [0x1c]).2.1 =
          evs0 ++ [((lecp_parse cbNone ctx0 [0x1c]).1, LECPCB_FAILED)] ∧
        EvsOk evs0) ∧
    ((lecp_parse cbNone ctx0 [0x1c]).2.2 = LECP_REJECT_CALLBACK ∨
        (lecp_parse cbNone ctx0 [0x1c]).2.2 = LECP_STACK_OVERFLOW →
      (∃ evs0, (lecp_parse cbNone ctx0 [0x1c]).2.1 =
          evs0 ++ [((lecp_parse cbNone ctx0 [0x1c]).1, LECPCB_FAILED)] ∧
        EvsOk evs0) ∨
      EvsOk (lecp_parse cbNone ctx0 [0x1c]).2.1) ∧
    ((lecp_parse cbNone ctx0 [0x1c]).2.2 = 0 ∨
        (lecp_parse cbNone ctx0 [0x1c]).2.2 = LECP_CONTINUE →
      EvsOk (lecp_parse cbNone ctx0 [0x1c]).2.1)) :=
  ⟨⟨⟨by decide, by decide⟩, by decide, fun f hf => absurd hf (List.not_mem_nil f)⟩,
   c1_amended cbNone ctx0 [0x1c]
     ⟨⟨by decide, by decide⟩, by decide, fun f hf => absurd hf (List.not_mem_nil f)⟩⟩

/-- C7 (amended): once a pattern match has been recorded
(`path_match` non-zero) it persists for the rest of the parse - a pop
that truncates the path below the recorded length re-runs the matcher
but, because `lecp_check_path_match` returns early whenever
`path_match` is already set, never releases the recorded match (the
release described by the original claim does not happen). -/
theorem c7_amended (cb : Lecb) (ctx : Ctx) (bytes : List Nat) (h : ctx.Wf)
    (hne : ctx.path_match ≠ 0) :
    (lecp_parse cb ctx bytes).1.path_match = ctx.path_match :=
  (parse_good cb bytes ctx h).1 hne

theorem c7_amended_witness :
    Ctx.Wf ({ paths := [[46, 97]], path := [46, 97], path_match := 1, path_match_len := 2 } : Ctx) ∧
    ({ paths := [[46, 97]], path := [46, 97], path_match := 1, path_match_len := 2 } : Ctx).path_match ≠ 0 ∧
    (lecp_parse cbNone ({ paths := [[46, 97]], path := [46, 97], path_match := 1, path_match_len := 2 } : Ctx)
      [0xa1, 0x61, 0x62, 0x00]).1.path_match =
    ({ paths := [[46, 97]], path := [46, 97], path_match := 1, path_match_len := 2 } : Ctx).path_match :=
  ⟨⟨⟨by decide, by decide⟩, by decide, fun f hf => absurd hf (List.not_mem_nil f)⟩,
   by decide,
   c7_amended cbNone _ [0xa1, 0x61, 0x62, 0x00]
     ⟨⟨by decide, by decide⟩, by decide, fun f hf => absurd hf (List.not_mem_nil f)⟩
     (by decide)⟩


theorem retok_not_err {r : Int}
    (h : r = LECP_REJECT_BAD_CODING ∨ r = LECP_REJECT_CALLBACK ∨
      r = LECP_STACK_OVERFLOW) : ¬ RetOk r := by
  rcases h with h | h | h <;> subst h <;> rintro (h2 | h2) <;>
    exact absurd h2 (by decide)

theorem parse_ret_wf (cb : Lecb) (bytes : List Nat) (ctx : Ctx) (h : ctx.Wf)
    (hr : RetOk (lecp_parse cb ctx bytes).2.2) :
    (lecp_parse cb ctx bytes).1.Wf := by
  rcases (parse_good cb bytes ctx h).2 with ⟨_, w, _⟩ | ⟨_, _, _, hcode⟩ |
    ⟨_, hcode⟩
  · exact w
  · exact absurd hr (retok_not_err hcode)
  · exact absurd hr (retok_not_err (Or.inr hcode))

theorem step_err_not_retok (cb : Lecb) (ctx : Ctx) (c : Nat) (e : Int)
    (h : ctx.Wf) (he : (lecpStep cb ctx c).err = some e) : ¬ RetOk e := by
  rcases (lecpStep_good cb ctx c h).2 with ⟨h1, _, _⟩ | ⟨_, _, _, hcode⟩ |
    ⟨_, hcode⟩
  · rw [he] at h1; exact absurd h1 (by simp)
  · refine retok_not_err ?_
    rcases hcode with hc | hc | hc <;> rw [he] at hc <;>
      [exact Or.inl (Option.some_injective _ hc);
       exact Or.inr (Or.inl (Option.some_injective _ hc));
       exact Or.inr (Or.inr (Option.some_injective _ hc))]
  · refine retok_not_err (Or.inr ?_)
    rcases hcode with hc | hc <;> rw [he] at hc <;>
      [exact Or.inl (Option.some_injective _ hc);
       exact Or.inr (Option.some_injective _ hc)]

theorem step_ok_wf (cb : Lecb) (ctx : Ctx) (c : Nat) (h : ctx.Wf)
    (he : (lecpStep cb ctx c).err = none) : (lecpStep cb ctx c).ctx.Wf := by
  rcases (lecpStep_good cb ctx c h).2 with ⟨_, _, w⟩ | ⟨_, _, _, hcode⟩ |
    ⟨_, hcode⟩
  · exact w
  · rcases hcode with hc | hc | hc <;> rw [he] at hc <;> exact absurd hc (by simp)
  · rcases hcode with hc | hc <;> rw [he] at hc <;> exact absurd hc (by simp)

theorem parse_prefix_ret (cb : Lecb) (a : List Nat) : ∀ (b : List Nat)
    (ctx : Ctx), ctx.Wf → RetOk (lecp_parse cb ctx (a ++ b)).2.2 →
    RetOk (lecp_parse cb ctx a).2.2 := by
  induction a with
  | nil =>
    intro b ctx _ _
    show RetOk (lecp_retcode ctx)
    unfold lecp_retcode
    split
    · exact Or.inl rfl
    · exact Or.inr rfl
  | cons c a ih =>
    intro b ctx h hab
    cases he : (lecpStep cb ctx c).err with
    | some e =>
      rw [List.cons_append, parse_cons_err cb ctx c (a ++ b) e he] at hab
      exact absurd hab (step_err_not_retok cb ctx c e h he)
    | none =>
      rw [List.cons_append, parse_cons_ok cb ctx c (a ++ b) he] at hab
      rw [parse_cons_ok cb ctx c a he]
      exact ih b (lecpStep cb ctx c).ctx (step_ok_wf cb ctx c h he) hab

theorem parse_append (cb : Lecb) (a : List Nat) : ∀ (b : List Nat) (ctx : Ctx),
    ctx.Wf → RetOk (lecp_parse cb ctx a).2.2 →
    lecp_parse cb ctx (a ++ b) =
      ((lecp_parse cb (lecp_parse cb ctx a).1 b).1,
       (lecp_parse cb ctx a).2.1 ++
         (lecp_parse cb (lecp_parse cb ctx a).1 b).2.1,
       (lecp_parse cb (lecp_parse cb ctx a).1 b).2.2) := by
  induction a with
  | nil => intro b ctx _ _; rfl
  | cons c a ih =>
    intro b ctx h ha
    cases he : (lecpStep cb ctx c).err with
    | some e =>
      rw [parse_cons_err cb ctx c a e he] at ha
      exact absurd ha (step_err_not_retok cb ctx c e h he)
    | none =>
      rw [parse_cons_ok cb ctx c a he] at ha
      rw [List.cons_append, parse_cons_ok cb ctx c (a ++ b) he,
        ih b (lecpStep cb ctx c).ctx (step_ok_wf cb ctx c h he) ha,
        parse_cons_ok cb ctx c a he, List.append_assoc]

/-- C5 (amended): feeding a byte sequence as consecutive chunks is
equivalent to feeding it whole - context, event sequence and return
code all agree - provided the whole-sequence call does not error (the
original claim also covered erroring sequences, where the equivalence
fails because real callers stop at the first error return but the
chunked feed would keep going). -/
theorem c5_amended (cb : Lecb) (chunks : List (List Nat)) : ∀ (ctx : Ctx),
    ctx.Wf → RetOk (lecp_parse cb ctx chunks.flatten).2.2 →
    feedChunks cb ctx chunks = lecp_parse cb ctx chunks.flatten := by
  induction chunks with
  | nil => intro ctx _ _; rfl
  | cons c cs ih =>
    intro ctx h hr
    cases cs with
    | nil =>
      show lecp_parse cb ctx c = _
      rw [List.flatten_cons, List.flatten_nil, List.append_nil]
    | cons c2 cs2 =>
      rw [List.flatten_cons] at hr
      have hpre : RetOk (lecp_parse cb ctx c).2.2 :=
        parse_prefix_ret cb c (List.flatten (c2 :: cs2)) ctx h hr
      have hwf1 : (lecp_parse cb ctx c).1.Wf := parse_ret_wf cb c ctx h hpre
      have happ := parse_append cb c (List.flatten (c2 :: cs2)) ctx h hpre
      rw [happ] at hr
      have ih2 := ih (lecp_parse cb ctx c).1 hwf1 hr
      show ((feedChunks cb (lecp_parse cb ctx c).1 (c2 :: cs2)).1,
        (lecp_parse cb ctx c).2.1 ++
          (feedChunks cb (lecp_parse cb ctx c).1 (c2 :: cs2)).2.1,
        (feedChunks cb (lecp_parse cb ctx c).1 (c2 :: cs2)).2.2) = _

      rw [List.flatten_cons, happ, ih2]

theorem c5_amended_witness :
    Ctx.Wf ctx0 ∧
    RetOk (lecp_parse cbNone ctx0
      (List.flatten [[0x82, 0x18], [0x2a], [0x61], [0x41]])).2.2 ∧
    feedChunks cbNone ctx0 [[0x82, 0x18], [0x2a], [0x61], [0x41]] =
      lecp_parse cbNone ctx0 (List.flatten [[0x82, 0x18], [0x2a], [0x61], [0x41]]) :=
  ⟨⟨⟨by decide, by decide⟩, by decide, fun f hf => absurd hf (List.not_mem_nil f)⟩,
   Or.inl (by decide),
   c5_amended cbNone [[0x82, 0x18], [0x2a], [0x61], [0x41]] ctx0
     ⟨⟨by decide, by decide⟩, by decide, fun f hf => absurd hf (List.not_mem_nil f)⟩
     (Or.inl (by decide))⟩


theorem step_collect_mid (cb : Lecb) (ctx : Ctx) (c : Nat)
    (hs : ctx.st.s = LECP_COLLECT) (h2 : 2 ≤ ctx.st.collect_rem) :
    lecpStep cb ctx c =
      ⟨{ ctx with item := ctx.item + c % 256 * 256 ^ (ctx.st.collect_rem - 1), st := { ctx.st with collect_rem := ctx.st.collect_rem - 1 } }, [], none⟩ := by
  have hnz : ctx.st.collect_rem - 1 ≠ 0 := by omega
  unfold lecpStep lecpStepCore
  rw [hs, if_neg (by decide : ¬(LECP_COLLECT = LECP_OPC)), if_pos rfl]
  unfold stepCOLLECT
  rw [if_pos hnz]
  rfl

theorem collect_last (ctx : Ctx) (c : Nat) (hs : ctx.st.s = LECP_COLLECT)
    (hrem : ctx.st.collect_rem = 1) (hc : c < 256)
    (hop : ctx.st.opcode = LWS_CBOR_MAJTYP_UINT ∨
      ctx.st.opcode = LWS_CBOR_MAJTYP_INT_NEG)
    (hiop : ctx.itemOpcode ≠ LWS_CBOR_MAJTYP_TAG)
    (hsr : ctx.stRest = []) :
    lecp_parse cbNone ctx [c] =
      ({ ctx with buf := [], item := (if ctx.st.opcode = LWS_CBOR_MAJTYP_INT_NEG then 2 ^ 64 - 1 - (ctx.item + c) else ctx.item + c), st := { ctx.st with collect_rem := 0, s := LECP_OPC } },
       [({ ctx with buf := [], item := (if ctx.st.opcode = LWS_CBOR_MAJTYP_INT_NEG then 2 ^ 64 - 1 - (ctx.item + c) else ctx.item + c), st := { ctx.st with collect_rem := 0 } }, ctx.present)],
       0) := by
  obtain ⟨⟨s0, p0, ind0, int0, piss0, rem0, ord0, opc0, tag0⟩, csr, cpaths,
    cpath, ci, cbuf, citem, ciop, cpres, cpmv, cpml, cwild⟩ := ctx
  simp only at hs hrem hsr hiop hop
  subst hs
  subst hrem
  subst hsr
  have hiop2 : ciop ≠ 192 := hiop
  rcases hop with hop | hop <;> subst hop <;>
    simp [lecp_parse, lecpStep, lecpStepCore, stepCOLLECT, stepIssue,
      StepCore.finish, lwcp_completed, lwcp_walk, lecp_retcode, cbNone, hiop2,
      Nat.mod_eq_of_lt hc,
      LWS_CBOR_MAJTYP_UINT, LWS_CBOR_MAJTYP_INT_NEG, LWS_CBOR_MAJTYP_BSTR,
      LWS_CBOR_MAJTYP_TSTR, LWS_CBOR_MAJTYP_ARRAY, LWS_CBOR_MAJTYP_MAP,
      LWS_CBOR_MAJTYP_TAG, LECP_OPC, LECP_COLLECT, LECP_SIMPLEX8,
      LECP_COLLATE, LECP_ONLY_SAME]

theorem collect_int_run : ∀ (n : Nat) (ctx : Ctx) (v : Nat),
    ctx.st.s = LECP_COLLECT → ctx.st.collect_rem = n → v < 256 ^ n →
    ctx.stRest = [] →
    ctx.st.opcode = LWS_CBOR_MAJTYP_UINT ∨
      ctx.st.opcode = LWS_CBOR_MAJTYP_INT_NEG →
    ctx.itemOpcode ≠ LWS_CBOR_MAJTYP_TAG → 0 < n →
    lecp_parse cbNone ctx (beBytes n v) =
      ({ ctx with buf := [], item := (if ctx.st.opcode = LWS_CBOR_MAJTYP_INT_NEG then 2 ^ 64 - 1 - (ctx.item + v) else ctx.item + v), st := { ctx.st with collect_rem := 0, s := LECP_OPC } },
       [({ ctx with buf := [], item := (if ctx.st.opcode = LWS_CBOR_MAJTYP_INT_NEG then 2 ^ 64 - 1 - (ctx.item + v) else ctx.item + v), st := { ctx.st with collect_rem := 0 } }, ctx.present)],
       0)
  | 0, _, _, _, _, _, _, _, _, hn => absurd hn (by decide)
  | 1, ctx, v, hs, hrem, hv, hsr, hop, hiop, _ => by
    have hb : beBytes 1 v = [v] := by simp [beBytes]
    rw [hb]
    exact collect_last ctx v hs hrem (by simpa using hv) hop hiop hsr
  | n+2, ctx, v, hs, hrem, hv, hsr, hop, hiop, _ => by
    have h2 : 2 ≤ ctx.st.collect_rem := by rw [hrem]; omega
    have hstep := step_collect_mid cbNone ctx (v / 256 ^ (n+1)) hs h2
    have hdlt : v / 256 ^ (n+1) % 256 = v / 256 ^ (n+1) := by
      apply Nat.mod_eq_of_lt
      apply Nat.div_lt_of_lt_mul
      calc v < 256 ^ (n+2) := hv
        _ = 256 ^ (n+1) * 256 := by rw [pow_succ]
    rw [hdlt] at hstep
    have hcons := parse_cons_ok cbNone ctx (v / 256 ^ (n+1))
      (beBytes (n+1) (v % 256 ^ (n+1))) (by rw [hstep])
    rw [hstep] at hcons
    have h1 : lecp_parse cbNone ctx (beBytes (n+2) v) =
        lecp_parse cbNone ({ ctx with item := ctx.item + v / 256 ^ (n+1) * 256 ^ (ctx.st.collect_rem - 1), st := { ctx.st with collect_rem := ctx.st.collect_rem - 1 } } : Ctx)
          (beBytes (n+1) (v % 256 ^ (n+1))) := hcons.trans rfl
    have hrem1 : (({ ctx with item := ctx.item + v / 256 ^ (n+1) * 256 ^ (ctx.st.collect_rem - 1), st := { ctx.st with collect_rem := ctx.st.collect_rem - 1 } } : Ctx)).st.collect_rem = n + 1 := by
      show ctx.st.collect_rem - 1 = n + 1
      omega
    have hrun := collect_int_run (n+1)
      ({ ctx with item := ctx.item + v / 256 ^ (n+1) * 256 ^ (ctx.st.collect_rem - 1), st := { ctx.st with collect_rem := ctx.st.collect_rem - 1 } } : Ctx)
      (v % 256 ^ (n+1)) hs hrem1
      (Nat.mod_lt _ (Nat.pos_pow_of_pos _ (by decide))) hsr hop hiop
      (Nat.succ_pos _)
    rw [h1, hrun]
    have e1 : ctx.item + v / 256 ^ (n+1) * 256 ^ (ctx.st.collect_rem - 1) +
        v % 256 ^ (n+1) = ctx.item + v := by
      rw [hrem]
      have e0 : n + 2 - 1 = n + 1 := by omega
      rw [e0, Nat.add_assoc, Nat.div_add_mod']
    simp only []
    rw [e1]

theorem head_collect (H op pres n : Nat)
    (hstep : lecpStep cbNone ctx0 H = ⟨{ ctx0 with st := { ctx0.st with opcode := op, s := LECP_COLLECT, collect_rem := n }, itemOpcode := op, present := pres, item := 0 }, [], none⟩)
    (hop : op = LWS_CBOR_MAJTYP_UINT ∨ op = LWS_CBOR_MAJTYP_INT_NEG)
    (hiop : op ≠ LWS_CBOR_MAJTYP_TAG) (hn : 0 < n)
    (v : Nat) (hv : v < 256 ^ n) :
    (lecp_parse cbNone ctx0 (H :: beBytes n v)).2.1.map
      (fun e => (e.1.item, e.2)) =
        [((if op = LWS_CBOR_MAJTYP_INT_NEG then 2 ^ 64 - 1 - v else v), pres)] ∧
    (lecp_parse cbNone ctx0 (H :: beBytes n v)).2.2 = 0 := by
  have hcons := parse_cons_ok cbNone ctx0 H (beBytes n v) (by rw [hstep])
  rw [hstep] at hcons
  have h1 : lecp_parse cbNone ctx0 (H :: beBytes n v) =
      lecp_parse cbNone ({ ctx0 with st := { ctx0.st with opcode := op, s := LECP_COLLECT, collect_rem := n }, itemOpcode := op, present := pres, item := 0 } : Ctx)
        (beBytes n v) := hcons.trans rfl
  have hrun := collect_int_run n
    ({ ctx0 with st := { ctx0.st with opcode := op, s := LECP_COLLECT, collect_rem := n }, itemOpcode := op, present := pres, item := 0 } : Ctx)
    v rfl rfl hv rfl hop hiop hn
  rw [h1, hrun]
  exact ⟨by simp, rfl⟩

/-- C8 (amended): a UINT delivered through VAL_NUM_UINT carries
exactly the encoded argument, whether immediate or collected from a
1/2/4/8-byte big-endian argument; a NEGINT delivered through
VAL_NUM_INT carries the 64-bit two's-complement encoding
`2^64 - 1 - argument` of `-1 - argument` (the C code's
`(-1ll) - u.u64`), whose signed reading equals `-1 - argument` only
while the argument is below `2^63` - not for the whole claimed range
up to `2^64 - 1`, where the subtraction wraps. -/
theorem c8_amended :
    (∀ nb, nb < 4 → ∀ v, v < 256 ^ 2 ^ nb →
      ((lecp_parse cbNone ctx0 ((0x18 + nb) :: beBytes (2 ^ nb) v)).2.1.map
          (fun e => (e.1.item, e.2)) = [(v, LECPCB_VAL_NUM_UINT)] ∧
        (lecp_parse cbNone ctx0 ((0x18 + nb) :: beBytes (2 ^ nb) v)).2.2 = 0) ∧
      ((lecp_parse cbNone ctx0 ((0x38 + nb) :: beBytes (2 ^ nb) v)).2.1.map
          (fun e => (e.1.item, e.2)) =
            [(2 ^ 64 - 1 - v, LECPCB_VAL_NUM_INT)] ∧
        (lecp_parse cbNone ctx0 ((0x38 + nb) :: beBytes (2 ^ nb) v)).2.2 = 0)) ∧
    (∀ s, s < 24 →
      (lecp_parse cbNone ctx0 [s]).2.1.map (fun e => (e.1.item, e.2)) =
          [(s, LECPCB_VAL_NUM_UINT)] ∧
      (lecp_parse cbNone ctx0 [s]).2.2 = 0 ∧
      (lecp_parse cbNone ctx0 [0x20 + s]).2.1.map (fun e => (e.1.item, e.2)) =
          [(2 ^ 64 - 1 - s, LECPCB_VAL_NUM_INT)] ∧
      (lecp_parse cbNone ctx0 [0x20 + s]).2.2 = 0) ∧
    (∀ v, v < 2 ^ 63 → i64view (2 ^ 64 - 1 - v) = -1 - (v : Int)) := by
  refine ⟨?_, by decide, ?_⟩
  · intro nb hnb v hv
    interval_cases nb
    · refine ⟨?_, ?_⟩
      · have h := head_collect 24 0 LECPCB_VAL_NUM_UINT 1 rfl (Or.inl rfl) (by decide) (by decide) v hv
        simpa using h
      · have h := head_collect 56 32 LECPCB_VAL_NUM_INT 1 rfl (Or.inr rfl) (by decide) (by decide) v hv
        simpa using h
    · refine ⟨?_, ?_⟩
      · have h := head_collect 25 0 LECPCB_VAL_NUM_UINT 2 rfl (Or.inl rfl) (by decide) (by decide) v hv
        simpa using h
      · have h := head_collect 57 32 LECPCB_VAL_NUM_INT 2 rfl (Or.inr rfl) (by decide) (by decide) v hv
        simpa using h
    · refine ⟨?_, ?_⟩
      · have h := head_collect 26 0 LECPCB_VAL_NUM_UINT 4 rfl (Or.inl rfl) (by decide) (by decide) v hv
        simpa using h
      · have h := head_collect 58 32 LECPCB_VAL_NUM_INT 4 rfl (Or.inr rfl) (by decide) (by decide) v hv
        simpa using h
    · refine ⟨?_, ?_⟩
      · have h := head_collect 27 0 LECPCB_VAL_NUM_UINT 8 rfl (Or.inl rfl) (by decide) (by decide) v hv
        simpa using h
      · have h := head_collect 59 32 LECPCB_VAL_NUM_INT 8 rfl (Or.inr rfl) (by decide) (by decide) v hv
        simpa using h
  · intro v hv
    unfold i64view
    split <;> omega

theorem c8_amended_witness :
    ((lecp_parse cbNone ctx0 ((0x18 + 3) :: beBytes (2 ^ 3) 300)).2.1.map
        (fun e => (e.1.item, e.2)) = [(300, LECPCB_VAL_NUM_UINT)] ∧
      (lecp_parse cbNone ctx0 ((0x18 + 3) :: beBytes (2 ^ 3) 300)).2.2 = 0) ∧
    ((lecp_parse cbNone ctx0 ((0x38 + 3) :: beBytes (2 ^ 3) 300)).2.1.map
        (fun e => (e.1.item, e.2)) = [(2 ^ 64 - 1 - 300, LECPCB_VAL_NUM_INT)] ∧
      (lecp_parse cbNone ctx0 ((0x38 + 3) :: beBytes (2 ^ 3) 300)).2.2 = 0) ∧
    ((lecp_parse cbNone ctx0 [7]).2.1.map (fun e => (e.1.item, e.2)) =
        [(7, LECPCB_VAL_NUM_UINT)] ∧
      (lecp_parse cbNone ctx0 [7]).2.2 = 0 ∧
      (lecp_parse cbNone ctx0 [0x20 + 7]).2.1.map (fun e => (e.1.item, e.2)) =
          [(2 ^ 64 - 1 - 7, LECPCB_VAL_NUM_INT)] ∧
      (lecp_parse cbNone ctx0 [0x20 + 7]).2.2 = 0) ∧
    i64view (2 ^ 64 - 1 - 300) = -1 - (300 : Int) :=
  ⟨(c8_amended.1 3 (by decide) 300 (by decide)).1,
   (c8_amended.1 3 (by decide) 300 (by decide)).2,
   c8_amended.2.1 7 (by decide),
   c8_amended.2.2 300 (by decide)⟩

end Lecp
